import Mathlib

/-!
# Verification of the drawio2mermaid diagram interchange engine

A shallow embedding of the converter core of the drawio2mermaid repository:
the Mermaid parser (`src/converters/mermaidParser.js`), the Mermaid → Draw.io
converter and layout engine (`src/converters/mermaidToDrawio.js`), the Draw.io
parser (`src/converters/drawioParser.js`) and the Draw.io → Mermaid serializers
(`src/converters/drawioToMermaid.js`).

Strings are modelled as Lean `String` / `List Char`.  The JavaScript regular
expressions used by the parsers are modelled by a small backtracking matcher
(`Rx` below) that reproduces the relevant ECMAScript semantics: leftmost match,
greedy repetition with backtracking, left-biased alternation, greedy optional
groups, and numbered capture groups.  The repetition operators in the source
regexes only ever repeat single-character classes, which is all the matcher
supports.

The DOM collaborators (XML tree reader, HTML stripping) are external
interfaces per the specification; they are modelled where needed and the
models are documented at their definitions.
-/

namespace D2M

/-- JavaScript whitespace class `\s` (ASCII part): space, tab, LF, VT, FF, CR.
Also the class used by `String.prototype.trim`. -/
def jsWs (c : Char) : Bool :=
  c = ' ' || c = '\t' || c = '\n' || c = '\r' || c = '\x0b' || c = '\x0c'

/-- JavaScript `String.prototype.trim`. -/
def jsTrim (cs : List Char) : List Char :=
  ((cs.dropWhile jsWs).reverse.dropWhile jsWs).reverse

/-- `str.trim()` on Lean strings. -/
def jsTrimS (s : String) : String := ⟨jsTrim s.data⟩

/-- Literal string as a character list. -/
def L (s : String) : List Char := s.data

/-- Split a character list on a separator character (JavaScript
`str.split(sep)` semantics: the empty input yields `[[]]`). -/
def splitOnChar (sep : Char) : List Char → List (List Char)
  | [] => [[]]
  | c :: t =>
    let rest := splitOnChar sep t
    if c = sep then [] :: rest
    else match rest with
      | [] => [[c]]
      | h :: hs => (c :: h) :: hs

/-- `str.split("\n")` on Lean strings. -/
def splitLinesS (s : String) : List String :=
  (splitOnChar '\n' s.data).map (fun l => (⟨l⟩ : String))

/-- Case-insensitive prefix test (ASCII case folding), for `/.../i` literals. -/
def isPrefixCI : List Char → List Char → Bool
  | [], _ => true
  | _ :: _, [] => false
  | a :: as, b :: bs => (a.toLower = b.toLower) && isPrefixCI as bs

/-- Substring containment, JavaScript `String.prototype.includes`. -/
def hasSubList (hay needle : List Char) : Bool :=
  match hay with
  | [] => needle.isEmpty
  | _ :: t => needle.isPrefixOf hay || hasSubList t needle

/-- `hay.includes(needle)` on Lean strings. -/
def strContains (hay needle : String) : Bool := hasSubList hay.data needle.data

/-- Length of the maximal run of characters satisfying `p`. -/
def countRun (p : Char → Bool) : List Char → Nat
  | [] => 0
  | c :: t => if p c then countRun p t + 1 else 0

/-! ## A small model of the ECMAScript regular expressions used by the source -/

/-- Capture environment: group number ↦ captured characters (latest first). -/
abbrev Caps := List (Nat × List Char)

/-- Regular expressions as used by the converter sources.  `cls p min` is the
greedy repetition of a single-character class (`[...]*` / `[...]+`), `istr` a
case-insensitive literal (for `/.../i` patterns). -/
inductive Rx where
  | eps
  | str (cs : List Char)
  | istr (cs : List Char)
  | cls (p : Char → Bool) (min : Nat)
  | seq (a b : Rx)
  | alt (a b : Rx)
  | opt (a : Rx)
  | grp (n : Nat) (a : Rx)

/-- Backtracking helper for `cls`: try consuming `len` characters, then
shorter prefixes down to `min` (greedy, longest first). -/
def clsTry (min : Nat) (cs : List Char) (caps : Caps)
    (k : List Char → Caps → Option (List Char × Caps)) :
    Nat → Option (List Char × Caps)
  | 0 => k cs caps
  | l + 1 =>
    match k (cs.drop (l + 1)) caps with
    | some r => some r
    | none => if l < min then none else clsTry min cs caps k l

/-- Continuation-passing matcher.  Succeeds with the remaining input and the
captures; backtracking follows ECMAScript order (greedy repetitions longest
first, alternation left first, optional groups matching first). -/
def rxM : Rx → List Char → Caps → (List Char → Caps → Option (List Char × Caps)) →
    Option (List Char × Caps)
  | .eps, cs, caps, k => k cs caps
  | .str l, cs, caps, k =>
    if l.isPrefixOf cs then k (cs.drop l.length) caps else none
  | .istr l, cs, caps, k =>
    if isPrefixCI l cs then k (cs.drop l.length) caps else none
  | .cls p min, cs, caps, k =>
    let n := countRun p cs
    if n < min then none else clsTry min cs caps k n
  | .seq a b, cs, caps, k => rxM a cs caps (fun cs' caps' => rxM b cs' caps' k)
  | .alt a b, cs, caps, k =>
    match rxM a cs caps k with
    | some r => some r
    | none => rxM b cs caps k
  | .opt a, cs, caps, k =>
    match rxM a cs caps k with
    | some r => some r
    | none => k cs caps
  | .grp n a, cs, caps, k =>
    rxM a cs caps (fun cs' caps' =>
      k cs' ((n, cs.take (cs.length - cs'.length)) :: caps'))

/-- Match `r` at the start of `cs`; returns consumed length and captures. -/
def rxMatchAt (r : Rx) (cs : List Char) : Option (Nat × Caps) :=
  match rxM r cs [] (fun rest caps => some (rest, caps)) with
  | some (rest, caps) => some (cs.length - rest.length, caps)
  | none => none

/-- Leftmost search, as JavaScript `string.match(re)`: the match starting at
the smallest index wins.  Returns `(index, length, captures)`. -/
def rxSearchFrom (r : Rx) (idx : Nat) : List Char → Option (Nat × Nat × Caps)
  | [] =>
    match rxMatchAt r [] with
    | some (len, caps) => some (idx, len, caps)
    | none => none
  | c :: t =>
    match rxMatchAt r (c :: t) with
    | some (len, caps) => some (idx, len, caps)
    | none => rxSearchFrom r (idx + 1) t

/-- `line.match(re)` model: leftmost match with index, length and captures. -/
def rxSearch (r : Rx) (cs : List Char) : Option (Nat × Nat × Caps) :=
  rxSearchFrom r 0 cs

/-- Value of capture group `n` (JavaScript `match[n]`), `none` when the group
did not participate. -/
def capGet (caps : Caps) (n : Nat) : Option (List Char) :=
  (caps.find? (fun e => e.1 = n)).map (fun e => e.2)

/-! ## Mermaid parser (`src/converters/mermaidParser.js`)

The parser is embedded verbatim up to the representation of strings and
regexes.  The one impure ingredient of the source, `Date.now()` (used for the
fallback node id in `parseNodeFromPart`), is passed in explicitly as the
parameter `now`, and every parsing function additionally reports (in the
`usedClock` field) whether that fallback was ever taken. -/

/-- A parsed Mermaid node (`{ id, label, shape }`). -/
structure MNode where
  id : String
  label : String
  shape : String
deriving DecidableEq, Repr

/-- A parsed Mermaid edge (`{ id, source, target, label, type }`). -/
structure MEdge where
  id : String
  source : String
  target : String
  label : String
  etype : String
deriving DecidableEq, Repr

/-- A parsed Mermaid subgraph (`{ id, label, nodes }`). -/
structure MSub where
  id : String
  label : String
  nodes : List String
deriving DecidableEq, Repr

/-- Node shape patterns, in source order (`nodePatterns`).  The capture group
is group 1 in every pattern. -/
def nodePatterns : List (Rx × String) :=
  [ (.seq (.str (L "[")) (.seq (.grp 1 (.cls (fun c => c ≠ ']') 1)) (.str (L "]"))),
      "rectangle"),      -- /\[([^\]]+)\]/
    (.seq (.str (L "(")) (.seq (.grp 1 (.cls (fun c => c ≠ ')') 1)) (.str (L ")"))),
      "rounded"),        -- /\(([^)]+)\)/
    (.seq (.str (L "([")) (.seq (.grp 1 (.cls (fun c => c ≠ ']') 1)) (.str (L "])"))),
      "stadium"),        -- /\(\[([^\]]+)\]\)/
    (.seq (.str (L "[[")) (.seq (.grp 1 (.cls (fun c => c ≠ ']') 1)) (.str (L "]]"))),
      "subroutine"),     -- /\[\[([^\]]+)\]\]/
    (.seq (.str (L "[(")) (.seq (.grp 1 (.cls (fun c => c ≠ ')') 1)) (.str (L ")]"))),
      "cylinder"),       -- /\[\(([^)]+)\)\]/
    (.seq (.str (L "\x7b\x7b")) (.seq (.grp 1 (.cls (fun c => c ≠ '\x7d') 1))
        (.str (L "\x7d\x7d"))),
      "hexagon"),        -- /\{\{([^}]+)\}\}/
    (.seq (.str (L "\x7b")) (.seq (.grp 1 (.cls (fun c => c ≠ '\x7d') 1))
        (.str (L "\x7d"))),
      "diamond"),        -- /\{([^}]+)\}/
    (.seq (.str (L "((")) (.seq (.grp 1 (.cls (fun c => c ≠ ')') 1)) (.str (L "))"))),
      "circle"),         -- /\(\(([^)]+)\)\)/
    (.seq (.str (L ">")) (.seq (.grp 1 (.cls (fun c => c ≠ ']') 1)) (.str (L "]"))),
      "asymmetric"),     -- /\>([^\]]+)\]/
    (.seq (.str (L "[/")) (.seq (.grp 1 (.cls (fun c => c ≠ '/') 1)) (.str (L "/]"))),
      "parallelogram") ] -- /\[\/([^\/]+)\/\]/

/-- An edge pattern: regex, `type`, `hasLabel`. -/
structure EdgePat where
  rx : Rx
  etype : String
  hasLabel : Bool

/-- Edge patterns, in source order (`edgePatterns`). -/
def edgePats : List EdgePat :=
  [ ⟨.seq (.str (L "-->|")) (.seq (.grp 1 (.cls (fun c => c ≠ '|') 1)) (.str (L "|"))),
      "arrow", true⟩,    -- /-->\|([^|]+)\|/
    ⟨.str (L "-->"), "arrow", false⟩,
    ⟨.seq (.str (L "---|")) (.seq (.grp 1 (.cls (fun c => c ≠ '|') 1)) (.str (L "|"))),
      "line", true⟩,     -- /---\|([^|]+)\|/
    ⟨.str (L "---"), "line", false⟩,
    ⟨.seq (.str (L "-.->|")) (.seq (.grp 1 (.cls (fun c => c ≠ '|') 1)) (.str (L "|"))),
      "dotted", true⟩,   -- /-\.->\|([^|]+)\|/
    ⟨.str (L "-.->"), "dotted", false⟩,
    ⟨.seq (.str (L "==>|")) (.seq (.grp 1 (.cls (fun c => c ≠ '|') 1)) (.str (L "|"))),
      "thick", true⟩,    -- /==>\|([^|]+)\|/
    ⟨.str (L "==>"), "thick", false⟩ ]

/-- The `j`-th edge pattern (out of range: an unmatchable placeholder). -/
def edgePat (j : Nat) : EdgePat :=
  edgePats.getD j ⟨.str (L "\x00unused"), "", false⟩

/-- Index of the leftmost match of the `j`-th edge pattern in the line. -/
def searchIdx (line : List Char) (j : Nat) : Option Nat :=
  (rxSearch (edgePat j).rx line).map (fun r => r.1)

/-- The winning edge match in `parseFlowchartLine`:
pattern index, match index, match length, type and label. -/
structure EdgeMatch where
  patIdx : Nat
  index : Nat
  length : Nat
  etype : String
  label : String
deriving DecidableEq, Repr

/-- Body of the selection loop of `parseFlowchartLine`: replace the best match
so far only when pattern `j` matches strictly earlier (`match.index <
edgeIndex`), so ties keep the earlier-declared pattern. -/
def stepBest (line : List Char) (j : Nat) (best : Option EdgeMatch) :
    Option EdgeMatch :=
  match rxSearch (edgePat j).rx line with
  | some (idx, len, caps) =>
    let em : EdgeMatch :=
      ⟨j, idx, len, (edgePat j).etype,
        if (edgePat j).hasLabel then ⟨(capGet caps 1).getD []⟩ else ""⟩
    match best with
    | some b => if idx < b.index then some em else some b
    | none => some em
  | none => best

/-- The selection loop of `parseFlowchartLine` over the pattern indices. -/
def findEdgeAux (line : List Char) : List Nat → Option EdgeMatch → Option EdgeMatch
  | [], best => best
  | j :: rest, best => findEdgeAux line rest (stepBest line j best)

/-- Find the edge pattern to split the line at (the scan over `edgePatterns`
in `parseFlowchartLine`). -/
def findEdge (line : List Char) : Option EdgeMatch :=
  findEdgeAux line (List.range edgePats.length) none

/-- Leading identifier `/^([A-Za-z_][A-Za-z0-9_]*)/`. -/
def leadIdent (cs : List Char) : Option (List Char) :=
  match cs with
  | [] => none
  | c :: t =>
    if c.isAlpha || c = '_' then
      some (c :: t.takeWhile (fun d => d.isAlpha || d.isDigit || d = '_'))
    else none

/-- First node pattern (in declaration order) that matches anywhere in the
part; returns the group-1 capture and the pattern's shape. -/
def findNodePattern (part : List Char) : List (Rx × String) → Option (List Char × String)
  | [] => none
  | (r, shape) :: rest =>
    match rxSearch r part with
    | some (_, _, caps) => some ((capGet caps 1).getD [], shape)
    | none => findNodePattern part rest

/-- `parseNodeFromPart`.  The second component records whether the
`node_${Date.now()}` fallback id was taken. -/
def parseNodeFromPart (now : Nat) (part : List Char) : Option MNode × Bool :=
  if jsTrim part = [] then (none, false)
  else
    match findNodePattern part nodePatterns with
    | some (cap, shape) =>
      match leadIdent part with
      | some idcs => (some ⟨⟨idcs⟩, ⟨jsTrim cap⟩, shape⟩, false)
      | none => (some ⟨"node_" ++ toString now, ⟨jsTrim cap⟩, shape⟩, true)
    | none =>
      match leadIdent part with
      | some idcs => (some ⟨⟨idcs⟩, ⟨idcs⟩, "rectangle"⟩, false)
      | none => (none, false)

/-- Parser state for `parseFlowchart`: the node map (insertion order), the
edge list, the subgraph list, the index of the current subgraph, and whether
`Date.now()` was consulted. -/
structure FState where
  nodes : List MNode
  edges : List MEdge
  subgraphs : List MSub
  current : Option Nat
  usedClock : Bool
deriving DecidableEq, Repr

/-- `nodes.has(id)` on the node map. -/
def hasNode (nodes : List MNode) (id : String) : Bool := nodes.any (fun n => n.id = id)

/-- `currentSubgraph.nodes.push(id)` (no-op when no subgraph is open). -/
def addCur (st : FState) (id : String) : FState :=
  match st.current with
  | none => st
  | some i =>
    { st with subgraphs :=
        st.subgraphs.mapIdx (fun j sg => if j = i then { sg with nodes := sg.nodes ++ [id] } else sg) }

/-- Register a node in the map (and the open subgraph) if its id is new. -/
def addNodeIfNew (st : FState) (n : MNode) : FState :=
  if hasNode st.nodes n.id then st
  else addCur { st with nodes := st.nodes ++ [n] } n.id

/-- Register the source node of an edge line (the `if (sourceNode)` block). -/
def registerSource (st : FState) (srcOpt : Option MNode) : FState :=
  match srcOpt with
  | some n => addNodeIfNew st n
  | none => st

/-- The first node of a chained part (`part.match(/^([^-=]+)/)` followed by
`parseNodeFromPart` in `parseChainedTargets`); no match parses nothing and
consults nothing. -/
def chainFirstNode (now : Nat) (targetPart : List Char) : Option MNode × Bool :=
  match targetPart with
  | [] => (none, false)
  | c :: _ =>
    if c = '-' || c = '=' then (none, false)
    else
      parseNodeFromPart now
        (jsTrim (targetPart.takeWhile (fun d => d ≠ '-' && d ≠ '=')))

/-- A one-element list from an optional node (`result.push(node)`). -/
def optList : Option MNode → List MNode
  | some n => [n]
  | none => []

/-- Push the edge for the line when a source node and a first target exist. -/
def pushEdge (st : FState) (srcOpt : Option MNode) (targets : List MNode)
    (em : EdgeMatch) : FState :=
  match srcOpt, targets with
  | some sn, t :: _ =>
    { st with edges := st.edges ++
        [⟨"edge_" ++ toString st.edges.length, sn.id, t.id, em.label, em.etype⟩] }
  | _, _ => st

/-- `parseFlowchartLine`, with `parseChainedTargets` inlined (the two source
functions are mutually recursive; the recursion is on the text after the edge
match, bounded here by the `fuel` parameter, which the top-level caller sets
larger than the line length so that it never runs out). -/
def parseFlowchartLineF (now : Nat) : Nat → List Char → FState → FState
  | 0, _, st => st
  | fuel + 1, line, st =>
    match findEdge line with
    | some em =>
      let sourcePart := jsTrim (line.take em.index)
      let targetPart := jsTrim (line.drop (em.index + em.length))
      let ps := parseNodeFromPart now sourcePart
      let st2 := registerSource { st with usedClock := st.usedClock || ps.2 } ps.1
      -- parseChainedTargets targetPart:
      let hasMore := edgePats.any (fun p => (rxSearch p.rx targetPart).isSome)
      let tr :=
        if hasMore then
          let st' := parseFlowchartLineF now fuel targetPart st2
          let pn := chainFirstNode now targetPart
          (optList pn.1, { st' with usedClock := st'.usedClock || pn.2 })
        else
          let pn := parseNodeFromPart now targetPart
          let st'' := { st2 with usedClock := st2.usedClock || pn.2 }
          match pn.1 with
          | some n => ([n], addNodeIfNew st'' n)
          | none => (([] : List MNode), st'')
      pushEdge tr.2 ps.1 tr.1 em
    | none =>
      let pn := parseNodeFromPart now line
      registerSource { st with usedClock := st.usedClock || pn.2 } pn.1

/-- Non-whitespace (`\S`). -/
def nonWs (c : Char) : Bool := !jsWs c

/-- Any character (`.` without the `s` flag): not a line terminator. -/
def notNl (c : Char) : Bool := c ≠ '\n' && c ≠ '\r'

/-- `/subgraph\s+(\S+)(?:\s*\[([^\]]+)\])?/` -/
def rxSubgraph : Rx :=
  .seq (.str (L "subgraph"))
    (.seq (.cls jsWs 1)
      (.seq (.grp 1 (.cls nonWs 1))
        (.opt (.seq (.cls jsWs 0)
          (.seq (.str (L "[")) (.seq (.grp 2 (.cls (fun c => c ≠ ']') 1)) (.str (L "]"))))))))

/-- `/^(TB|TD|BT|RL|LR)$/.test(line)` -/
def isDirectionLine (line : List Char) : Bool :=
  line = L "TB" || line = L "TD" || line = L "BT" || line = L "RL" || line = L "LR"

/-- JavaScript `a || b` on capture group values: `undefined` and the empty
string both fall back. -/
def capOr (c : Option (List Char)) (dflt : String) : String :=
  match c with
  | some l => if l = [] then dflt else ⟨l⟩
  | none => dflt

/-- One line of the flowchart loop body of `parseFlowchart`. -/
def flowchartStep (now : Nat) (st : FState) (line : List Char) : FState :=
  if isDirectionLine line then st
  else if (L "subgraph").isPrefixOf line then
    match rxSearch rxSubgraph line with
    | some (_, _, caps) =>
      match capGet caps 1 with
      | some idcs =>
        { st with
          subgraphs := st.subgraphs ++ [⟨⟨idcs⟩, capOr (capGet caps 2) ⟨idcs⟩, []⟩],
          current := some st.subgraphs.length }
      | none => st
    | none => st
  else if line = L "end" then { st with current := none }
  else parseFlowchartLineF now (line.length + 1) line st

/-- `parseFlowchart` over the non-header lines. -/
def parseFlowchart (now : Nat) (lns : List (List Char)) : FState :=
  (lns.drop 1).foldl (flowchartStep now) ⟨[], [], [], none, false⟩

/-- `/participant\s+(\S+)(?:\s+as\s+(.+))?/i` -/
def rxParticipant : Rx :=
  .seq (.istr (L "participant"))
    (.seq (.cls jsWs 1)
      (.seq (.grp 1 (.cls nonWs 1))
        (.opt (.seq (.cls jsWs 1)
          (.seq (.istr (L "as")) (.seq (.cls jsWs 1) (.grp 2 (.cls notNl 1))))))))

/-- `/actor\s+(\S+)(?:\s+as\s+(.+))?/i` -/
def rxActor : Rx :=
  .seq (.istr (L "actor"))
    (.seq (.cls jsWs 1)
      (.seq (.grp 1 (.cls nonWs 1))
        (.opt (.seq (.cls jsWs 1)
          (.seq (.istr (L "as")) (.seq (.cls jsWs 1) (.grp 2 (.cls notNl 1))))))))

/-- `/(\S+)\s*(->>|-->>|->|-->|-)>\s*(\S+)\s*:\s*(.+)/` -/
def rxMessage : Rx :=
  .seq (.grp 1 (.cls nonWs 1))
    (.seq (.cls jsWs 0)
      (.seq (.grp 2 (.alt (.str (L "->>")) (.alt (.str (L "-->>"))
          (.alt (.str (L "->")) (.alt (.str (L "-->")) (.str (L "-")))))))
        (.seq (.str (L ">"))
          (.seq (.cls jsWs 0)
            (.seq (.grp 3 (.cls nonWs 1))
              (.seq (.cls jsWs 0)
                (.seq (.str (L ":")) (.seq (.cls jsWs 0) (.grp 4 (.cls notNl 1))))))))))

/-- State of `parseSequenceDiagram`: node list, edge list, participant set. -/
structure SeqState where
  nodes : List MNode
  edges : List MEdge
  participants : List String
deriving DecidableEq, Repr

/-- Register a sequence participant if not yet declared. -/
def seqRegister (st : SeqState) (id label shape : String) : SeqState :=
  if st.participants.contains id then st
  else { st with participants := st.participants ++ [id],
                 nodes := st.nodes ++ [⟨id, label, shape⟩] }

/-- One line of the `parseSequenceDiagram` loop body. -/
def sequenceStep (st : SeqState) (line : List Char) : SeqState :=
  match rxSearch rxParticipant line with
  | some (_, _, caps) =>
    match capGet caps 1 with
    | some idcs => seqRegister st ⟨idcs⟩ (capOr (capGet caps 2) ⟨idcs⟩) "rectangle"
    | none => st
  | none =>
    match rxSearch rxActor line with
    | some (_, _, caps) =>
      match capGet caps 1 with
      | some idcs => seqRegister st ⟨idcs⟩ (capOr (capGet caps 2) ⟨idcs⟩) "circle"
      | none => st
    | none =>
      match rxSearch rxMessage line with
      | some (_, _, caps) =>
        match capGet caps 1, capGet caps 3, capGet caps 4 with
        | some src, some tgt, some lbl =>
          let st1 := seqRegister st ⟨src⟩ ⟨src⟩ "rectangle"
          let st2 := seqRegister st1 ⟨tgt⟩ ⟨tgt⟩ "rectangle"
          { st2 with edges := st2.edges ++
              [⟨"edge_" ++ toString st2.edges.length, ⟨src⟩, ⟨tgt⟩, ⟨lbl⟩, "arrow"⟩] }
        | _, _, _ => st
      | none => st

/-- `parseSequenceDiagram` over the non-header lines. -/
def parseSequenceDiagram (lns : List (List Char)) : SeqState :=
  (lns.drop 1).foldl sequenceStep ⟨[], [], []⟩

/-- `/class\s+(\S+)\s*\{?/` -/
def rxClassDecl : Rx :=
  .seq (.str (L "class"))
    (.seq (.cls jsWs 1)
      (.seq (.grp 1 (.cls nonWs 1))
        (.seq (.cls jsWs 0) (.opt (.str (L "\x7b"))))))

/-- `/(\S+)\s*(<\|--|--\|>|<--|\*--|o--|-->|--\*|--o|--)\s*(\S+)(?:\s*:\s*(.+))?/` -/
def rxRelation : Rx :=
  .seq (.grp 1 (.cls nonWs 1))
    (.seq (.cls jsWs 0)
      (.seq (.grp 2 (.alt (.str (L "<|--")) (.alt (.str (L "--|>"))
          (.alt (.str (L "<--")) (.alt (.str (L "*--")) (.alt (.str (L "o--"))
          (.alt (.str (L "-->")) (.alt (.str (L "--*")) (.alt (.str (L "--o"))
          (.str (L "--")))))))))))
        (.seq (.cls jsWs 0)
          (.seq (.grp 3 (.cls nonWs 1))
            (.opt (.seq (.cls jsWs 0)
              (.seq (.str (L ":")) (.seq (.cls jsWs 0) (.grp 4 (.cls notNl 1))))))))))

/-- Register a class if not yet declared (the `classes` set). -/
def classRegister (st : SeqState) (id : String) : SeqState :=
  if st.participants.contains id then st
  else { st with participants := st.participants ++ [id],
                 nodes := st.nodes ++ [⟨id, id, "rectangle"⟩] }

/-- One line of the `parseClassDiagram` loop body. -/
def classStep (st : SeqState) (line : List Char) : SeqState :=
  match rxSearch rxClassDecl line with
  | some (_, _, caps) =>
    match capGet caps 1 with
    | some idcs => classRegister st ⟨idcs⟩
    | none => st
  | none =>
    match rxSearch rxRelation line with
    | some (_, _, caps) =>
      match capGet caps 1, capGet caps 3 with
      | some src, some tgt =>
        let lbl := capOr (capGet caps 4) ""
        let st1 := classRegister st ⟨src⟩
        let st2 := classRegister st1 ⟨tgt⟩
        { st2 with edges := st2.edges ++
            [⟨"edge_" ++ toString st2.edges.length, ⟨src⟩, ⟨tgt⟩, lbl, "arrow"⟩] }
      | _, _ => st
    | none => st

/-- `parseClassDiagram` over the non-header lines. -/
def parseClassDiagram (lns : List (List Char)) : SeqState :=
  (lns.drop 1).foldl classStep ⟨[], [], []⟩

/-- Result of `parseMermaidCode`. -/
structure MGraph where
  nodes : List MNode
  edges : List MEdge
  subgraphs : List MSub
  diagramType : String
  usedClock : Bool
deriving DecidableEq, Repr

/-- The line preprocessing of `parseMermaidCode`: split on `\n`, trim, drop
blank lines and `%%` comments. -/
def preprocessLines (code : String) : List (List Char) :=
  ((splitOnChar '\n' code.data).map jsTrim).filter
    (fun l => l ≠ [] && !(L "%%").isPrefixOf l)

/-- Diagram type detection on the lowercased first line. -/
def detectMermaidType (firstLine : List Char) : String :=
  if (L "flowchart").isPrefixOf firstLine || (L "graph").isPrefixOf firstLine then "flowchart"
  else if (L "sequencediagram").isPrefixOf firstLine then "sequence"
  else if (L "classdiagram").isPrefixOf firstLine then "class"
  else if (L "statediagram").isPrefixOf firstLine then "state"
  else if (L "erdiagram").isPrefixOf firstLine then "er"
  else if (L "gantt").isPrefixOf firstLine then "gantt"
  else if (L "pie").isPrefixOf firstLine then "pie"
  else "flowchart"

/-- `parseMermaidCode`.  `now` is the value `Date.now()` would return; the
source throws on empty input, modelled with `Except.error`. -/
def parseMermaidCode (now : Nat) (code : String) : Except String MGraph :=
  let lns := preprocessLines code
  match lns with
  | [] => .error "El código Mermaid está vacío"
  | l0 :: _ =>
    let diagramType := detectMermaidType (l0.map Char.toLower)
    if diagramType = "sequence" then
      let r := parseSequenceDiagram lns
      .ok ⟨r.nodes, r.edges, [], diagramType, false⟩
    else if diagramType = "class" then
      let r := parseClassDiagram lns
      .ok ⟨r.nodes, r.edges, [], diagramType, false⟩
    else
      let r := parseFlowchart now lns
      .ok ⟨r.nodes, r.edges, r.subgraphs, diagramType, r.usedClock⟩

/-! ## Mermaid → Draw.io (`src/converters/mermaidToDrawio.js`)

`calculateNodePositions` is decomposed into its phases (adjacency/in-degree
construction, BFS layering, appending unreached nodes, position map, final
node mapping); the composition is the source function.  JavaScript `Map`s are
modelled as association lists where `alSet` prepends (so lookup by first match
realises last-write-wins). -/

/-- `Map.set` (overwrite). -/
def alSet {α : Type} (m : List (String × α)) (k : String) (v : α) : List (String × α) :=
  (k, v) :: m

/-- `Map.get`. -/
def alGet {α : Type} (m : List (String × α)) (k : String) : Option α :=
  (m.find? (fun e => e.1 = k)).map (fun e => e.2)

/-- `Map.has`. -/
def alHas {α : Type} (m : List (String × α)) (k : String) : Bool :=
  (m.find? (fun e => e.1 = k)).isSome

/-- A node with geometry assigned (the `{...node, x, y, width, height}`
objects returned by `calculateNodePositions`). -/
structure PNode where
  id : String
  label : String
  shape : String
  x : Int
  y : Int
  width : Int
  height : Int
deriving DecidableEq, Repr

/-- Adjacency list and in-degree map construction (the two `forEach` loops at
the top of `calculateNodePositions`). -/
def buildAdjDeg (nodes : List MNode) (edges : List MEdge) :
    List (String × List String) × List (String × Int) :=
  let init := nodes.foldl
    (fun (m : List (String × List String) × List (String × Int)) n =>
      (alSet m.1 n.id [], alSet m.2 n.id 0)) ([], [])
  edges.foldl
    (fun m e =>
      if alHas m.1 e.source && alHas m.1 e.target then
        (alSet m.1 e.source ((alGet m.1 e.source).getD [] ++ [e.target]),
         alSet m.2 e.target ((alGet m.2 e.target).getD 0 + 1))
      else m) init

/-- Add one successor to the next layer unless already visited or already
added (the `nextLayer` `Set` semantics, preserving insertion order). -/
def addNb (visited acc2 : List String) (nb : String) : List String :=
  if visited.contains nb || acc2.contains nb then acc2 else acc2 ++ [nb]

/-- The next BFS layer: unvisited successors of the current layer. -/
def nextLayerOf (adjacency : List (String × List String)) (visited : List String)
    (cur : List String) : List String :=
  cur.foldl (fun acc id => ((alGet adjacency id).getD []).foldl (addNb visited) acc) []

/-- The BFS layering loop.  `fuel` bounds the iteration count; the caller
passes `nodes.length + 1`, which exceeds the possible number of iterations
(each iteration visits at least one previously unvisited node id). -/
def bfsAux (adjacency : List (String × List String)) :
    Nat → List String → List String → List (List String) →
    List (List String) × List String
  | 0, _, visited, layers => (layers, visited)
  | _ + 1, [], visited, layers => (layers, visited)
  | fuel + 1, cur@(_ :: _), visited, layers =>
    let visited' := visited ++ cur
    let layers' := layers ++ [cur]
    let next := nextLayerOf adjacency visited' cur
    bfsAux adjacency fuel next visited' layers'

/-- `layers[layers.length - 1].push(id)` (creating `[[]]` first when the list
of layers is empty, as the source does). -/
def pushLast : List (List String) → String → List (List String)
  | [], id => [[id]]
  | [l], id => [l ++ [id]]
  | l :: rest, id => l :: pushLast rest id

/-- Append nodes never reached by the BFS to the last layer (`visited` is not
updated by this loop, exactly as in the source). -/
def appendRemaining (nodes : List MNode) (visited : List String)
    (layers : List (List String)) : List (List String) :=
  nodes.foldl
    (fun ls n => if visited.contains n.id then ls else pushLast ls n.id) layers

/-- The initial BFS layer: the root nodes, or — when no node has in-degree
zero — the first node (`if (currentLayer.length === 0 && nodes.length > 0)`). -/
def startOf (roots : List String) (nodes : List MNode) : List String :=
  match roots, nodes with
  | [], n0 :: _ => [n0.id]
  | rs, _ => rs

/-- The complete BFS layering of `calculateNodePositions`. -/
def layersOf (nodes : List MNode) (edges : List MEdge) : List (List String) :=
  let adjacency := (buildAdjDeg nodes edges).1
  let inDeg := (buildAdjDeg nodes edges).2
  let roots := (nodes.filter (fun n => alGet inDeg n.id = some 0)).map (fun n => n.id)
  let res := bfsAux adjacency (nodes.length + 1) (startOf roots nodes) [] []
  appendRemaining nodes res.2 res.1

/-- The position of node `i` in a layer of length `len` at depth `li`:
`x = startX + 300 + startOffset + i*180`, `y = startY + li*120`, with
`startOffset = -layerWidth/2 + horizontalSpacing/2`. -/
def nodePos (len : Int) (li i : Nat) : Int × Int :=
  (50 + 300 + (-(len * 180) / 2 + 180 / 2) + (i : Int) * 180,
   50 + (li : Int) * 120)

/-- Place one node of a layer into the position map. -/
def placeNode (len : Int) (li : Nat) (m : List (String × Int × Int))
    (p : Nat × String) : List (String × Int × Int) :=
  alSet m p.2 (nodePos len li p.1)

/-- Place all nodes of one (depth, layer) pair. -/
def placeLayer (m : List (String × Int × Int)) (e : Nat × List String) :
    List (String × Int × Int) :=
  e.2.enum.foldl (placeNode (e.2.length : Int) e.1) m

/-- The position map (`layers.forEach((layer, layerIndex) => …)`). -/
def buildPositionMap (layers : List (List String)) : List (String × Int × Int) :=
  layers.enum.foldl placeLayer []

/-- `calculateNodePositions` (the unused `diagramType` parameter of the source
is omitted).  Note the JavaScript `positionMap.get(id)?.x || 100` fallback:
an absent entry — or a coordinate equal to `0` — falls back to `100`. -/
def calculateNodePositions (nodes : List MNode) (edges : List MEdge) : List PNode :=
  let positionMap := buildPositionMap (layersOf nodes edges)
  nodes.map (fun n =>
    let pos := alGet positionMap n.id
    { id := n.id, label := n.label, shape := n.shape,
      x := match pos with
           | some p => if p.1 = 0 then 100 else p.1
           | none => 100,
      y := match pos with
           | some p => if p.2 = 0 then 100 else p.2
           | none => 100,
      width := 120, height := 60 })

/-! ## Draw.io XML generation (`generateDrawioXML` in `drawioParser.js`) -/

/-- `escapeXml`. -/
def escapeXml (text : String) : String :=
  ⟨text.data.foldr
    (fun c acc =>
      if c = '&' then L "&amp;" ++ acc
      else if c = '<' then L "&lt;" ++ acc
      else if c = '>' then L "&gt;" ++ acc
      else if c = '"' then L "&quot;" ++ acc
      else if c = '\'' then L "&apos;" ++ acc
      else c :: acc)
    []⟩

/-- `getStyleForShape`. -/
def getStyleForShape (shape : String) : String :=
  if shape = "rectangle" then "rounded=0;whiteSpace=wrap;html=1;"
  else if shape = "rounded" then "rounded=1;whiteSpace=wrap;html=1;"
  else if shape = "diamond" then "rhombus;whiteSpace=wrap;html=1;"
  else if shape = "circle" then "ellipse;whiteSpace=wrap;html=1;"
  else if shape = "cylinder" then "shape=cylinder3;whiteSpace=wrap;html=1;boundedLbl=1;"
  else if shape = "hexagon" then "shape=hexagon;whiteSpace=wrap;html=1;"
  else if shape = "parallelogram" then "shape=parallelogram;whiteSpace=wrap;html=1;"
  else if shape = "stadium" then "rounded=1;whiteSpace=wrap;html=1;arcSize=50;"
  else if shape = "subroutine" then "shape=process;whiteSpace=wrap;html=1;"
  else if shape = "asymmetric" then "shape=trapezoid;whiteSpace=wrap;html=1;"
  else "rounded=0;whiteSpace=wrap;html=1;"

/-- JavaScript `a || b` for strings. -/
def strOr (a b : String) : String := if a = "" then b else a

/-- JavaScript `a || b` for integers (`0` is falsy). -/
def intOr (a b : Int) : Int := if a = 0 then b else a

/-- The node cell text of `generateDrawioXML`. -/
def nodeCellXml (index : Nat) (n : PNode) : String :=
  let id := strOr n.id ("node_" ++ toString index)
  let x := intOr n.x (((index : Int) % 3) * 200 + 50)
  let y := intOr n.y ((index : Int) / 3 * 150 + 50)
  let width := intOr n.width 120
  let height := intOr n.height 60
  let label := escapeXml n.label
  "<mxCell id=\"" ++ id ++ "\" value=\"" ++ label ++ "\" style=\"" ++
    getStyleForShape n.shape ++ "\" vertex=\"1\" parent=\"1\">\n      " ++
    "<mxGeometry x=\"" ++ toString x ++ "\" y=\"" ++ toString y ++
    "\" width=\"" ++ toString width ++ "\" height=\"" ++ toString height ++
    "\" as=\"geometry\"/>\n    </mxCell>"

/-- The edge cell text of `generateDrawioXML`. -/
def edgeCellXml (index : Nat) (e : MEdge) : String :=
  let id := strOr e.id ("edge_" ++ toString index)
  let label := escapeXml e.label
  "<mxCell id=\"" ++ id ++ "\" value=\"" ++ label ++
    "\" style=\"edgeStyle=orthogonalEdgeStyle;rounded=1;orthogonalLoop=1;jettySize=auto;html=1;\" edge=\"1\" parent=\"1\" source=\"" ++
    e.source ++ "\" target=\"" ++ e.target ++
    "\">\n      <mxGeometry relative=\"1\" as=\"geometry\"/>\n    </mxCell>"

/-- `generateDrawioXML`. -/
def generateDrawioXML (nodes : List PNode) (edges : List MEdge) : String :=
  let cellsXml :=
    ["<mxCell id=\"0\"/>", "<mxCell id=\"1\" parent=\"0\"/>"] ++
    (nodes.enum.map (fun p => nodeCellXml p.1 p.2)) ++
    (edges.enum.map (fun p => edgeCellXml p.1 p.2))
  let graphXml := "<mxGraphModel>\n  <root>\n    " ++
    String.intercalate "\n    " cellsXml ++ "\n  </root>\n</mxGraphModel>"
  "<mxfile>\n  <diagram name=\"Page-1\">\n    " ++ graphXml ++ "\n  </diagram>\n</mxfile>"

/-- The data phase of `convertMermaidToDrawio`: parse, reject empty node
lists, lay out, and keep only edges with both endpoints in the node map. -/
def mermaidToDrawioCore (now : Nat) (code : String) :
    Except String (List PNode × List MEdge) :=
  match parseMermaidCode now code with
  | .error e => .error ("Error al convertir Mermaid a Draw.io: " ++ e)
  | .ok g =>
    if g.nodes.length = 0 then
      .error "Error al convertir Mermaid a Draw.io: No se encontraron nodos en el diagrama Mermaid"
    else
      let positioned := calculateNodePositions g.nodes g.edges
      let ids := positioned.map (fun n => n.id)
      let validEdges := g.edges.filter (fun e => ids.contains e.source && ids.contains e.target)
      .ok (positioned, validEdges)

/-- `convertMermaidToDrawio`. -/
def convertMermaidToDrawio (now : Nat) (code : String) : Except String String :=
  (mermaidToDrawioCore now code).map (fun r => generateDrawioXML r.1 r.2)

/-! ## Draw.io parser (`parseDrawioXML` in `src/converters/drawioParser.js`)

The XML preprocessing (BOM/`mxfile` handling via `DOMParser`) and the cell
normalization read the DOM; per §6 of the specification the XML tree reader is
an external collaborator.  The embedding therefore starts from the list of
normalized cell records that the normalization loop produces (the `cells`
array of the source), and covers the four passes over it. -/

/-- Geometry attributes of an `mxGeometry` element (absent attribute =
`none`; numeric attribute values are modelled as integers). -/
structure GeomAttrs where
  x : Option Int
  y : Option Int
  width : Option Int
  height : Option Int
deriving DecidableEq, Repr

/-- A normalized cell record (the objects pushed onto `cells`): DOM attribute
reads yield `none` when the attribute is absent; `value` is already collapsed
from `value || label || ''`. -/
structure Cell where
  id : Option String
  value : String
  style : String
  vertex : Option String
  edge : Option String
  parent : Option String
  source : Option String
  target : Option String
  connectable : Option String
  geom : Option GeomAttrs
deriving DecidableEq, Repr

/-- JavaScript truthiness of a nullable string. -/
def truthy : Option String → Bool
  | none => false
  | some s => s ≠ ""

/-- Geometry with defaults (`parseFloat(attr) || dflt`; an absent attribute or
the value `0` falls back for width/height, while `x`/`y` default to `0`). -/
structure Geo where
  x : Int
  y : Int
  width : Int
  height : Int
deriving DecidableEq, Repr

/-- `getGeometry` of `parseDrawioXML`. -/
def getGeometry (c : Cell) : Geo :=
  match c.geom with
  | none => ⟨0, 0, 100, 60⟩
  | some g =>
    ⟨g.x.getD 0, g.y.getD 0,
     intOr (g.width.getD 0) 100,
     intOr (g.height.getD 0) 60⟩

/-! ### `cleanLabel`

The source strips HTML markup using DOM scratch elements; the DOM is an
external collaborator here, modelled as follows: tag stripping removes every
`<`…`>` span (an unterminated `<` drops the rest of the text), and entity
decoding is a single left-to-right pass over the named and numeric entities
the labels of this code base use (`&amp; &lt; &gt; &quot; &#39; &nbsp;`). -/

/-- One replacement pass: rewrite every occurrence of `pat` (case-insensitive,
`pat` non-empty) to `repl`, scanning left to right.  The fuel is the input
length; every step consumes at least one character. -/
def replaceAllCIF (pat repl : List Char) : Nat → List Char → List Char
  | 0, cs => cs
  | _ + 1, [] => []
  | fuel + 1, c :: t =>
    if pat ≠ [] && isPrefixCI pat (c :: t) then
      repl ++ replaceAllCIF pat repl fuel ((c :: t).drop pat.length)
    else c :: replaceAllCIF pat repl fuel t

/-- Replace every case-insensitive occurrence of `pat` by `repl`. -/
def replaceAllCI (pat repl cs : List Char) : List Char :=
  replaceAllCIF pat repl cs.length cs

/-- `/<br\s*\/?>/gi`: match `<br`, optional whitespace, optional `/`, `>`;
returns the rest after the tag. -/
def matchBrAt (cs : List Char) : Option (List Char) :=
  match cs with
  | '<' :: c1 :: c2 :: rest =>
    if c1.toLower = 'b' && c2.toLower = 'r' then
      match rest.dropWhile jsWs with
      | '/' :: '>' :: r => some r
      | '>' :: r => some r
      | _ => none
    else none
  | _ => none

/-- Apply the `<br…>` → `'\n'` replacement everywhere. -/
def replaceBrF : Nat → List Char → List Char
  | 0, cs => cs
  | _ + 1, [] => []
  | fuel + 1, c :: t =>
    match matchBrAt (c :: t) with
    | some r => '\n' :: replaceBrF fuel r
    | none => c :: replaceBrF fuel t

/-- `/<br\s*\/?>/gi` → `'\n'`. -/
def replaceBr (cs : List Char) : List Char := replaceBrF cs.length cs

/-- `/<name[^>]*>/gi`: opening tag with arbitrary attributes; returns the rest
after the tag. -/
def matchOpenTagAt (name : List Char) (cs : List Char) : Option (List Char) :=
  match cs with
  | '<' :: rest =>
    if isPrefixCI name rest then
      match (rest.drop name.length).dropWhile (fun c => c ≠ '>') with
      | '>' :: r => some r
      | _ => none
    else none
  | _ => none

/-- Apply an opening-tag replacement (`<div…>` / `<p…>` → `'\n'`) everywhere. -/
def replaceOpenTagF (name : List Char) : Nat → List Char → List Char
  | 0, cs => cs
  | _ + 1, [] => []
  | fuel + 1, c :: t =>
    match matchOpenTagAt name (c :: t) with
    | some r => '\n' :: replaceOpenTagF name fuel r
    | none => c :: replaceOpenTagF name fuel t

/-- `/<div[^>]*>/gi` / `/<p[^>]*>/gi` → `'\n'`. -/
def replaceOpenTag (name cs : List Char) : List Char :=
  replaceOpenTagF name cs.length cs

/-- Strip remaining tags: the DOM `textContent` model.  Every `<`…`>` span is
removed; an unterminated `<` drops the rest of the text. -/
def stripTagsF : Nat → List Char → List Char
  | 0, cs => cs
  | _ + 1, [] => []
  | fuel + 1, c :: t =>
    if c = '<' then
      match t.dropWhile (fun d => d ≠ '>') with
      | '>' :: r => stripTagsF fuel r
      | _ => []
    else c :: stripTagsF fuel t

/-- DOM tag stripping model. -/
def stripTags (cs : List Char) : List Char := stripTagsF cs.length cs

/-- Entity decoding (model of the `<textarea>` decode): one left-to-right pass
over the entities occurring in this code base. -/
def decodeEntitiesF : Nat → List Char → List Char
  | 0, cs => cs
  | _ + 1, [] => []
  | fuel + 1, c :: t =>
    if (L "&amp;").isPrefixOf (c :: t) then '&' :: decodeEntitiesF fuel ((c :: t).drop 5)
    else if (L "&lt;").isPrefixOf (c :: t) then '<' :: decodeEntitiesF fuel ((c :: t).drop 4)
    else if (L "&gt;").isPrefixOf (c :: t) then '>' :: decodeEntitiesF fuel ((c :: t).drop 4)
    else if (L "&quot;").isPrefixOf (c :: t) then '"' :: decodeEntitiesF fuel ((c :: t).drop 6)
    else if (L "&#39;").isPrefixOf (c :: t) then '\'' :: decodeEntitiesF fuel ((c :: t).drop 5)
    else if (L "&nbsp;").isPrefixOf (c :: t) then ' ' :: decodeEntitiesF fuel ((c :: t).drop 6)
    else c :: decodeEntitiesF fuel t

/-- HTML entity decoding model. -/
def decodeEntities (cs : List Char) : List Char := decodeEntitiesF cs.length cs

/-- `cleanLabel`. -/
def cleanLabel (html : String) : String :=
  if html = "" then ""
  else
    let s1 := replaceBr html.data
    let s2 := replaceOpenTag (L "div") s1
    let s3 := replaceAllCI (L "</div>") [] s2
    let s4 := replaceOpenTag (L "p") s3
    let s5 := replaceAllCI (L "</p>") [] s4
    let s6 := replaceAllCI (L "&nbsp;") [' '] s5
    let s7 := stripTags s6
    let s8 := decodeEntities s7
    let s9 := jsTrim s8
    let lns := ((splitOnChar '\n' s9).map jsTrim).filter (fun l => l ≠ [])
    let s10 := (lns.intersperse ['\n']).flatten
    ⟨s10.map (fun c =>
      if c = '"' then '\''
      else if c = '[' then '('
      else if c = ']' then ')'
      else c)⟩

/-- `parseShapeFromStyle`: the `styleMap`, in source insertion order. -/
def styleMapList : List (String × String) :=
  [("rhombus", "diamond"), ("ellipse", "circle"), ("rounded=1", "rounded"),
   ("shape=parallelogram", "parallelogram"), ("shape=cylinder", "cylinder"),
   ("shape=hexagon", "hexagon"), ("shape=triangle", "triangle"),
   ("shape=document", "document"), ("shape=cloud", "cloud"),
   ("swimlane", "subgraph"), ("shape=process", "subroutine")]

/-- `parseShapeFromStyle`. -/
def parseShapeFromStyle (style : String) : String :=
  if style = "" then "rectangle"
  else
    match styleMapList.find? (fun p => strContains style p.1) with
    | some p => p.2
    | none => "rectangle"

/-- A node produced by the Draw.io parser.  `typ`, `name` and `members` are
set only by the group-merging pass (absent = `none`, matching the JavaScript
`undefined`). -/
structure DNode where
  id : Option String
  label : String
  shape : String
  style : String
  x : Int
  y : Int
  width : Int
  height : Int
  typ : Option String
  name : Option String
  members : Option (List String)
deriving DecidableEq, Repr

/-- An edge produced by the Draw.io parser. -/
structure DEdge where
  id : Option String
  source : Option String
  target : Option String
  label : String
  style : String
deriving DecidableEq, Repr

/-- First pass of `parseDrawioXML`: index the cells by id (`allCellsMap`) and
group the children by parent id (`groupChildren`); cells with a falsy id are
skipped.  `groupChildren` preserves `Map` insertion order. -/
def gcAdd (gc : List (String × List Cell)) (k : String) (c : Cell) :
    List (String × List Cell) :=
  if gc.any (fun e => e.1 = k) then
    gc.map (fun e => if e.1 = k then (e.1, e.2 ++ [c]) else e)
  else gc ++ [(k, [c])]

/-- `allCellsMap` and `groupChildren`. -/
def buildCellMaps (cells : List Cell) :
    List (String × Cell) × List (String × List Cell) :=
  cells.foldl
    (fun (m : List (String × Cell) × List (String × List Cell)) c =>
      if !truthy c.id then m
      else
        let am := alSet m.1 (c.id.getD "") c
        let gc :=
          match c.parent with
          | some p => if p ≠ "" && p ≠ "0" && p ≠ "1" then gcAdd m.2 p c else m.2
          | none => m.2
        (am, gc))
    ([], [])

/-- Stable insertion by geometry `y` (the `children.sort((a, b) =>
getGeometry(a).y - getGeometry(b).y)`; `Array.prototype.sort` is stable). -/
def insertByY (c : Cell) : List Cell → List Cell
  | [] => [c]
  | d :: rest =>
    if (getGeometry d).y ≤ (getGeometry c).y then d :: insertByY c rest
    else c :: d :: rest

/-- Stable sort of the children by geometry `y`. -/
def sortByY (l : List Cell) : List Cell := l.foldl (fun acc c => insertByY c acc) []

/-- Second pass of `parseDrawioXML`: merge every non-swimlane vertex group
with its children into one class-like node.  Returns the merged nodes (in
`groupChildren` order) and the set of consumed cell ids. -/
def processGroups (am : List (String × Cell)) (gc : List (String × List Cell)) :
    List DNode × List String :=
  gc.foldl
    (fun (acc : List DNode × List String) e =>
      let groupId := e.1
      let children := e.2
      match alGet am groupId with
      | none => acc
      | some groupCell =>
        if groupCell.vertex ≠ some "1" then acc
        else if strContains groupCell.style "swimlane" then acc
        else
          let geometry := getGeometry groupCell
          let style := groupCell.style
          let sorted := sortByY children
          let groupLabel0 := cleanLabel groupCell.value
          let hasTitle := groupLabel0 ≠ ""
          let mergedParts0 := if hasTitle then ["**" ++ groupLabel0 ++ "**"] else []
          -- children pass: collect labels, mark every vertex child processed
          let step := sorted.foldl
            (fun (p : List String × List String) child =>
              if child.vertex = some "1" then
                let cl := cleanLabel child.value
                ((if cl ≠ "" then p.1 ++ [cl] else p.1), p.2 ++ [child.id.getD ""])
              else p)
            ([], acc.2)
          let childrenLabels := step.1
          let processed1 := step.2
          -- title promotion when the group has no label
          let promoted :=
            if !hasTitle && childrenLabels ≠ [] then
              match childrenLabels with
              | t :: rest => (t, mergedParts0 ++ ["**" ++ t ++ "**"], rest)
              | [] => (groupLabel0, mergedParts0, childrenLabels)
            else (groupLabel0, mergedParts0, childrenLabels)
          let groupLabel := promoted.1
          let mergedParts1 := promoted.2.1
          let childrenLabels1 := promoted.2.2
          let mergedParts2 :=
            if childrenLabels1 ≠ [] then
              (if mergedParts1 ≠ [] then mergedParts1 ++ ["----------------"]
               else mergedParts1) ++ childrenLabels1
            else mergedParts1
          if mergedParts2 ≠ [] then
            let finalLabel := String.intercalate "<br/>" mergedParts2
            let isClassResult :=
              (groupLabel ≠ "" && childrenLabels1 ≠ []) ||
              (childrenLabels1 ≠ [] && strContains style "swimlane")
            let nodeData : DNode :=
              { id := some groupId, label := finalLabel,
                shape := if isClassResult then "class" else "rectangle",
                style := style,
                x := geometry.x, y := geometry.y,
                width := geometry.width, height := geometry.height,
                typ := some (if isClassResult then "class" else "node"),
                name := some (strOr groupLabel "Class"),
                members := some childrenLabels1 }
            (acc.1 ++ [nodeData], processed1 ++ [groupId])
          else (acc.1, processed1))
    ([], [])

/-- `processNode` of the third pass. -/
def processNode (c : Cell) : DNode :=
  let geometry := getGeometry c
  { id := c.id, label := cleanLabel c.value, shape := parseShapeFromStyle c.style,
    style := c.style, x := geometry.x, y := geometry.y,
    width := geometry.width, height := geometry.height,
    typ := none, name := none, members := none }

/-- `edgeMap.has(id)` over the edge list. -/
def edgeMapHas (edges : List DEdge) (eid : String) : Bool :=
  edges.any (fun e => e.id = some eid)

/-- Append `nl` (space-joined) to the label of the edge `edgeMap.get(eid)`
refers to: the most recently pushed edge with that id. -/
def appendLabelLast (edges : List DEdge) (eid nl : String) : List DEdge :=
  (go edges.reverse).reverse
where
  go : List DEdge → List DEdge
    | [] => []
    | e :: rest =>
      if e.id = some eid then
        { e with label := if e.label ≠ "" then e.label ++ " " ++ nl else nl } :: rest
      else e :: go rest

/-- Third pass of `parseDrawioXML`: skip consumed cells, fold edge labels of
already-seen edges, then emit plain nodes and edges. -/
def thirdPass (am : List (String × Cell)) (processed : List String)
    (groupNodes : List DNode) (cells : List Cell) : List DNode × List DEdge :=
  cells.foldl
    (fun (acc : List DNode × List DEdge) cell =>
      let skip := match cell.id with
        | some i => processed.contains i
        | none => false
      if skip then acc
      else
        let isLabel :=
          cell.vertex = some "1" && cell.connectable = some "0" &&
          truthy cell.parent &&
          (match alGet am (cell.parent.getD "") with
           | some pc => pc.edge = some "1"
           | none => false)
        if isLabel then
          let p := cell.parent.getD ""
          if edgeMapHas acc.2 p then
            let newLabel := cleanLabel cell.value
            if newLabel ≠ "" then (acc.1, appendLabelLast acc.2 p newLabel) else acc
          else acc
        else if cell.vertex = some "1" && cell.parent ≠ some "0" then
          (acc.1 ++ [processNode cell], acc.2)
        else if cell.edge = some "1" then
          (acc.1, acc.2 ++
            [⟨cell.id, cell.source, cell.target, cleanLabel cell.value, cell.style⟩])
        else acc)
    (groupNodes, [])

/-- Fourth pass of `parseDrawioXML`: apply label cells to edges again (meant
for labels that precede their edge in document order). -/
def fourthPass (cells : List Cell) (edges : List DEdge) : List DEdge :=
  cells.foldl
    (fun es cell =>
      let isLabel :=
        cell.vertex = some "1" && cell.connectable = some "0" &&
        truthy cell.parent && edgeMapHas es (cell.parent.getD "")
      if isLabel then
        let newLabel := cleanLabel cell.value
        if newLabel ≠ "" then appendLabelLast es (cell.parent.getD "") newLabel else es
      else es)
    edges

/-- `parseDrawioXML` over the normalized cell list: the four passes. -/
def parseDrawioXMLCells (cells : List Cell) : List DNode × List DEdge :=
  let maps := buildCellMaps cells
  let groups := processGroups maps.1 maps.2
  let ne := thirdPass maps.1 groups.2 groups.1 cells
  (ne.1, fourthPass cells ne.2)

/-! ## Draw.io → Mermaid serializers (`src/converters/drawioToMermaid.js`) -/

/-- Collapse every whitespace run into one `'_'` (`replace(/\s+/g, '_')`). -/
def collapseWsAux (prevWs : Bool) : List Char → List Char
  | [] => []
  | c :: t =>
    if jsWs c then
      if prevWs then collapseWsAux true t else '_' :: collapseWsAux true t
    else c :: collapseWsAux false t

/-- A character kept by `replace(/[^A-Za-z0-9_]/g, '')`. -/
def idChar (c : Char) : Bool := c.isAlpha || c.isDigit || c = '_'

/-- `sanitizeId`. -/
def sanitizeId (id : Option String) : String :=
  match id with
  | none => "node"
  | some s =>
    if s = "" then "node"
    else
      let collapsed := collapseWsAux false s.data
      let filtered := collapsed.filter idChar
      let prefixed :=
        match filtered with
        | c :: _ => if c.isDigit then 'n' :: '_' :: filtered else filtered
        | [] => []
      if prefixed = [] then "node" else ⟨prefixed⟩

/-- `escapeMermaidLabel`. -/
def escapeMermaidLabel (label : String) : String :=
  if label = "" then ""
  else if label.data.any (fun c =>
      c = '(' || c = ')' || c = '[' || c = ']' || c = '\x7b' || c = '\x7d' ||
      c = '"' || c = '\'' || c = '|' || c = ';') then
    "\"" ++ ⟨replaceAllCI (L "\"") (L "#quot;") label.data⟩ ++ "\""
  else label

/-- `formatFlowchartNode`. -/
def formatFlowchartNode (n : DNode) : String :=
  let id := sanitizeId n.id
  let label := escapeMermaidLabel (strOr n.label id)
  if n.shape = "diamond" then id ++ "\x7b" ++ label ++ "\x7d"
  else if n.shape = "circle" then id ++ "((" ++ label ++ "))"
  else if n.shape = "rounded" then id ++ "(" ++ label ++ ")"
  else if n.shape = "stadium" then id ++ "([" ++ label ++ "])"
  else if n.shape = "subroutine" then id ++ "[[" ++ label ++ "]]"
  else if n.shape = "cylinder" then id ++ "[(" ++ label ++ ")]"
  else if n.shape = "hexagon" then id ++ "\x7b\x7b" ++ label ++ "\x7d\x7d"
  else if n.shape = "parallelogram" then id ++ "[/" ++ label ++ "/]"
  else if n.shape = "asymmetric" then id ++ ">" ++ label ++ "]"
  else id ++ "[" ++ label ++ "]"

/-- `formatFlowchartEdge`. -/
def formatFlowchartEdge (e : DEdge) : String :=
  let source := sanitizeId e.source
  let target := sanitizeId e.target
  let arrow :=
    if e.style ≠ "" then
      if strContains e.style "dashed" then "-.->"
      else if strContains e.style "strokeWidth=2" || strContains e.style "strokeWidth=3" then "==>"
      else "-->"
    else "-->"
  if e.label ≠ "" then
    source ++ " " ++ arrow ++ "|" ++ escapeMermaidLabel e.label ++ "| " ++ target
  else source ++ " " ++ arrow ++ " " ++ target

/-- The edge section of `generateFlowchart`: an edge line is emitted only when
both endpoints are non-null and resolve to ids in the node list. -/
def flowchartEdgeLines (nodes : List DNode) (edges : List DEdge) : List String :=
  let nodeIds := nodes.map (fun n => n.id)
  edges.filterMap (fun e =>
    if !truthy e.source || !truthy e.target then none
    else if !nodeIds.contains e.source || !nodeIds.contains e.target then none
    else some ("    " ++ formatFlowchartEdge e))

/-- `generateFlowchart`. -/
def generateFlowchart (nodes : List DNode) (edges : List DEdge) (direction : String) :
    String :=
  let header := ["flowchart " ++ direction, ""]
  let nodeLines := nodes.map (fun n => "    " ++ formatFlowchartNode n)
  let beforeEdges := header ++ nodeLines ++ (if edges.length > 0 then [""] else [])
  String.intercalate "\n" (beforeEdges ++ flowchartEdgeLines nodes edges)

/-- The message lines of `generateSequenceDiagram`: the only check on an edge
is that its endpoints are non-null — endpoint ids are not required to resolve
to declared nodes. -/
def sequenceMessageLines (edges : List DEdge) : List String :=
  edges.filterMap (fun e =>
    if !truthy e.source || !truthy e.target then none
    else
      let source := sanitizeId e.source
      let target := sanitizeId e.target
      let label := escapeMermaidLabel (strOr e.label "message")
      let arrow := if e.style ≠ "" && strContains e.style "dashed" then "-->>" else "->>"
      some ("    " ++ source ++ arrow ++ target ++ ": " ++ label))

/-- `generateSequenceDiagram`. -/
def generateSequenceDiagram (nodes : List DNode) (edges : List DEdge) : String :=
  let header := ["sequenceDiagram", ""]
  let nodeLines := nodes.map (fun n =>
    let id := sanitizeId n.id
    let label := escapeMermaidLabel (strOr n.label id)
    if n.shape = "circle" then "    actor " ++ id ++ " as " ++ label
    else "    participant " ++ id ++ " as " ++ label)
  String.intercalate "\n" (header ++ nodeLines ++ [""] ++ sequenceMessageLines edges)

/-- Remove every occurrence of `**` (`replace(/\*\*/g, '')`). -/
def stripBold (s : String) : String := ⟨replaceAllCI (L "**") [] s.data⟩

/-- The class declaration lines for one node of `generateClassDiagram`. -/
def classDeclLines (n : DNode) : List String :=
  let id := sanitizeId n.id
  let rawName := strOr (n.name.getD "") (strOr n.label id)
  let displayName := stripBold rawName
  let nameNeedsQuotes := displayName.data.any (fun c => !idChar c) || displayName ≠ id
  let classDef :=
    if nameNeedsQuotes then "class " ++ id ++ "[\"" ++ displayName ++ "\"]"
    else "class " ++ id
  match n.members with
  | some (m :: ms) =>
    ["    " ++ classDef ++ " \x7b"] ++
    ((m :: ms).map (fun mem => "        " ++ jsTrimS mem)) ++ ["    \x7d"]
  | _ => ["    " ++ classDef]

/-- The relationship lines of `generateClassDiagram`: as for sequence
diagrams, the only check on an edge is that its endpoints are non-null. -/
def classRelationLines (edges : List DEdge) : List String :=
  edges.filterMap (fun e =>
    if !truthy e.source || !truthy e.target then none
    else
      let source := sanitizeId e.source
      let target := sanitizeId e.target
      let relation :=
        if e.style ≠ "" then
          if strContains e.style "endArrow=diamondThin" || strContains e.style "endArrow=diamond" then "o--"
          else if strContains e.style "endArrow=block" && strContains e.style "dashed" then "..|>"
          else if strContains e.style "endArrow=block" then "--|>"
          else if strContains e.style "dashed" then "..>"
          else "-->"
        else "-->"
      let label := if e.label ≠ "" then " : " ++ escapeMermaidLabel e.label else ""
      some ("    " ++ source ++ " " ++ relation ++ " " ++ target ++ label))

/-- `generateClassDiagram`. -/
def generateClassDiagram (nodes : List DNode) (edges : List DEdge) : String :=
  let header := ["classDiagram", ""]
  let declLines := nodes.foldl (fun acc n => acc ++ classDeclLines n) []
  String.intercalate "\n" (header ++ declLines ++ [""] ++ classRelationLines edges)

/-- `detectDiagramType`. -/
def detectDiagramType (nodes : List DNode) (edges : List DEdge) : String :=
  let isClassDiagram := nodes.any (fun n =>
    n.typ = some "class" ||
    (n.label ≠ "" && (strContains n.label "class" || strContains n.label "interface")))
  let hasSequencePatterns := edges.any (fun e =>
    e.label ≠ "" && (strContains e.label "request" || strContains e.label "response" ||
      strContains e.label "call"))
  if hasSequencePatterns then "sequence"
  else if isClassDiagram then "class"
  else "flowchart"

/-- `convertDrawioToMermaid` over the normalized cell list (defaults:
`direction = "TD"`, `diagramType = "flowchart"`). -/
def convertDrawioToMermaidCells (cells : List Cell) (direction diagramType : String) :
    Except String String :=
  let parsed := parseDrawioXMLCells cells
  if parsed.1.length = 0 then
    .error "Error al convertir Draw.io a Mermaid: No se encontraron nodos en el diagrama Draw.io"
  else
    let detectedType := detectDiagramType parsed.1 parsed.2
    let ty := if diagramType = "auto" then detectedType else diagramType
    .ok (if ty = "sequence" then generateSequenceDiagram parsed.1 parsed.2
         else if ty = "class" then generateClassDiagram parsed.1 parsed.2
         else generateFlowchart parsed.1 parsed.2 direction)

/-! ## The structural round trip -/

/-- Modelled from the spec: the external XML tree reader of §6 applied to the
output of `generateDrawioXML`.  `generateDrawioXML` emits, inside one page,
the two root cells, one vertex cell per node (id, escaped label, style from
`getStyleForShape`, geometry, `vertex="1" parent="1"`), and one edge cell per
edge (id, escaped label, the fixed orthogonal edge style, source and target);
reading that document back through the DOM yields exactly these normalized
records (attribute values are XML-unescaped by the reader, undoing
`escapeXml`). -/
def readGeneratedCells (nodes : List PNode) (edges : List MEdge) : List Cell :=
  [⟨some "0", "", "", none, none, none, none, none, none, none⟩,
   ⟨some "1", "", "", none, none, some "0", none, none, none, none⟩] ++
  nodes.enum.map (fun p =>
    let n := p.2
    { id := some (strOr n.id ("node_" ++ toString p.1)),
      value := n.label,
      style := getStyleForShape n.shape,
      vertex := some "1", edge := none, parent := some "1",
      source := none, target := none, connectable := none,
      geom := some ⟨some (intOr n.x (((p.1 : Int) % 3) * 200 + 50)),
                    some (intOr n.y ((p.1 : Int) / 3 * 150 + 50)),
                    some (intOr n.width 120), some (intOr n.height 60)⟩ }) ++
  edges.enum.map (fun p =>
    let e := p.2
    { id := some (strOr e.id ("edge_" ++ toString p.1)),
      value := e.label,
      style := "edgeStyle=orthogonalEdgeStyle;rounded=1;orthogonalLoop=1;jettySize=auto;html=1;",
      vertex := none, edge := some "1", parent := some "1",
      source := some e.source, target := some e.target, connectable := none,
      geom := some ⟨none, none, none, none⟩ })

/-- Mermaid → Draw.io → Mermaid round trip (with the Draw.io → Mermaid default
options `direction = "TD"`, `diagramType = "flowchart"`). -/
def mermaidRoundTrip (now : Nat) (code : String) : Except String String :=
  match mermaidToDrawioCore now code with
  | .error e => .error e
  | .ok r => convertDrawioToMermaidCells (readGeneratedCells r.1 r.2) "TD" "flowchart"

/-! ## Auxiliary predicates and concrete inputs used by the claims -/

/-- The run of `parseMermaidCode` at clock value `now` never consulted the
clock (an erroring run consults nothing). -/
def clockUnused (now : Nat) (code : String) : Bool :=
  match parseMermaidCode now code with
  | .ok g => !g.usedClock
  | .error _ => true

/-- An edge endpoint pair that resolves to nodes of the list. -/
def edgeResolves (nodes : List DNode) (e : DEdge) : Bool :=
  truthy e.source && truthy e.target &&
  (nodes.map (fun n => n.id)).contains e.source &&
  (nodes.map (fun n => n.id)).contains e.target

/-- An edge with non-null, non-empty endpoints. -/
def edgeEndpointsTruthy (e : DEdge) : Bool := truthy e.source && truthy e.target

/-- A plain rectangle test node for layout examples. -/
def mnode (s : String) : MNode := ⟨s, s, "rectangle"⟩

/-- Five isolated nodes: a single BFS layer of width 5. -/
def c2Nodes : List MNode :=
  [mnode "A", mnode "B", mnode "C", mnode "D", mnode "E"]

/-- The edge cell of the C1 document (`value=""`, parent is the page root). -/
def c1Edge : Cell :=
  ⟨some "e", "", "", none, some "1", some "1", some "A", some "B", none, none⟩

/-- A floating edge-label cell: a non-connectable vertex whose parent is the
edge `e`, with text `yes`. -/
def c1Label : Cell :=
  ⟨some "l", "yes", "", some "1", none, some "e", none, none, some "0", none⟩

/-- Endpoint vertex cells for the C1 document. -/
def c1NodeA : Cell :=
  ⟨some "A", "Start", "", some "1", none, some "1", none, none, none, none⟩

/-- Endpoint vertex cells for the C1 document. -/
def c1NodeB : Cell :=
  ⟨some "B", "End", "", some "1", none, some "1", none, none, none, none⟩

/-- C1 document with the label cell after the edge in document order. -/
def c1DocLabelAfter : List Cell := [c1NodeA, c1NodeB, c1Edge, c1Label]

/-- C1 document with the label cell before the edge in document order. -/
def c1DocLabelBefore : List Cell := [c1NodeA, c1NodeB, c1Label, c1Edge]

/-- The C5 group parent: a vertex cell labelled `Foo` with style `s`. -/
def c5Group (s : String) : Cell :=
  ⟨some "g", "Foo", s, some "1", none, some "1", none, none, none,
   some ⟨some 0, some 0, some 160, some 90⟩⟩

/-- The C5 child with text `a:int` at vertical position `y`. -/
def c5Child1 (y : Int) : Cell :=
  ⟨some "c1", "a:int", "", some "1", none, some "g", none, none, none,
   some ⟨some 0, some y, some 160, some 30⟩⟩

/-- The C5 child with text `b:int` at vertical position `y`. -/
def c5Child2 (y : Int) : Cell :=
  ⟨some "c2", "b:int", "", some "1", none, some "g", none, none, none,
   some ⟨some 0, some y, some 160, some 30⟩⟩

/-- C5 document, parent before children. -/
def c5DocParentFirst (s : String) (y1 y2 : Int) : List Cell :=
  [c5Group s, c5Child1 y1, c5Child2 y2]

/-- C5 document, children before parent. -/
def c5DocChildrenFirst (s : String) (y1 y2 : Int) : List Cell :=
  [c5Child1 y1, c5Child2 y2, c5Group s]

/-- The merged class-like node C5 must produce. -/
def c5Merged (s : String) : DNode :=
  { id := some "g", label := "**Foo**<br/>----------------<br/>a:int<br/>b:int",
    shape := "class", style := s, x := 0, y := 0, width := 160, height := 90,
    typ := some "class", name := some "Foo", members := some ["a:int", "b:int"] }

/-- A Draw.io node `A` for the C9 counterexample. -/
def c9Node : DNode :=
  ⟨some "A", "A", "rectangle", "", 0, 0, 0, 0, none, none, none⟩

/-- A dangling edge `A → Z` (`Z` is not a node) for the C9 counterexample. -/
def c9Edge : DEdge := ⟨some "e", some "A", some "Z", "", ""⟩

/-- A single plain vertex cell (used to witness non-empty parses). -/
def plainVertexCell : Cell :=
  ⟨some "X", "X", "", some "1", none, some "1", none, none, none, none⟩

/-- The C4 round-trip input. -/
def c4Input : String := "flowchart TD\nA[Start]-->B\x7bCheck\x7d"

/-- The Mermaid text the C4 round trip produces. -/
def c4Output : String :=
  "flowchart TD\n\n    A[Start]\n    B\x7bCheck\x7d\n\n    A --> B"

/-- The positioned graph `mermaidToDrawioCore` computes for the C4 input. -/
def c4CoreResult : List PNode × List MEdge :=
  ([⟨"A", "Start", "rectangle", 350, 50, 120, 60⟩,
    ⟨"B", "Check", "diamond", 350, 170, 120, 60⟩],
   [⟨"edge_0", "A", "B", "", "arrow"⟩])

/-! # Theorems -/

/-- **C1** (status: code_bug).  The claim — and the source's own comments in
passes 3 and 4 of `parseDrawioXML` — say a floating label cell is appended to
its edge's label exactly once, independently of document order.  The code
violates this: a label cell appearing *after* its edge is appended by pass 3
(the edge is already in `edgeMap`) and then again by pass 4, which has no
already-applied check, giving `"yes yes"`; a label cell appearing *before*
its edge is appended only by pass 4, giving `"yes"`.  So the label is doubled
in one order and the final label depends on document order. -/
theorem C1_label_double_append :
    (parseDrawioXMLCells c1DocLabelAfter).2 =
      [⟨some "e", some "A", some "B", "yes yes", ""⟩] ∧
    (parseDrawioXMLCells c1DocLabelBefore).2 =
      [⟨some "e", some "A", some "B", "yes", ""⟩] := by
  exact ⟨rfl, rfl⟩

/-- **C2 counterexample**.  With five isolated nodes the single BFS layer has
width 5 and the first node is placed at `x = 440 - 90·5 = -10`, so the claim's
"strictly positive x … with no restriction on how many nodes a layer
contains" fails. -/
theorem C2_counterexample :
    (calculateNodePositions c2Nodes []).map (fun p => p.x) =
      [-10, 170, 350, 530, 710] ∧
    ¬ (∀ p ∈ calculateNodePositions c2Nodes [], 0 < p.x) := by
  constructor
  · rfl
  · decide

/-- **C3 counterexample**.  On `1[Start] --> 2[End]` the node part does not
begin with a letter or underscore, so `parseNodeFromPart` falls back to
`node_${Date.now()}`: two runs at different clock values produce different
graphs, refuting "pure, deterministic function of its input text". -/
theorem C3_counterexample :
    parseMermaidCode 0 "flowchart TD\n1[Start] --> 2[End]" =
      .ok ⟨[⟨"node_0", "Start", "rectangle"⟩],
           [⟨"edge_0", "node_0", "node_0", "", "arrow"⟩], [], "flowchart", true⟩ ∧
    parseMermaidCode 1 "flowchart TD\n1[Start] --> 2[End]" =
      .ok ⟨[⟨"node_1", "Start", "rectangle"⟩],
           [⟨"edge_0", "node_1", "node_1", "", "arrow"⟩], [], "flowchart", true⟩ ∧
    (⟨[⟨"node_0", "Start", "rectangle"⟩],
      [⟨"edge_0", "node_0", "node_0", "", "arrow"⟩], [], "flowchart", true⟩ : MGraph) ≠
      ⟨[⟨"node_1", "Start", "rectangle"⟩],
       [⟨"edge_0", "node_1", "node_1", "", "arrow"⟩], [], "flowchart", true⟩ := by
  refine ⟨rfl, rfl, by decide⟩

/-- **C4** (status: confirmed).  Converting `flowchart TD\nA[Start]-->B{Check}`
to Draw.io XML and back yields Mermaid text containing node `A` as a rectangle
labelled `Start`, node `B` as a diamond labelled `Check`, and exactly one edge
line — `A --> B`, unlabelled. -/
theorem C4_round_trip :
    mermaidRoundTrip 0 c4Input = Except.ok c4Output ∧
    "    A[Start]" ∈ splitLinesS c4Output ∧
    "    B\x7bCheck\x7d" ∈ splitLinesS c4Output ∧
    (splitLinesS c4Output).filter (fun l => strContains l "-->") =
      ["    A --> B"] := by
  refine ⟨rfl, ?_, ?_, rfl⟩ <;> decide

/-- **C6 counterexample**.  The node pattern list tries the rectangle pattern
`/\[([^\]]+)\]/` first, and on `A([Start])` it matches `[Start]`, so the node
gets shape `rectangle`, not the `stadium` the claim's table assigns to
`([ ])`. -/
theorem C6_counterexample :
    parseMermaidCode 0 "flowchart TD\nA([Start])" =
      .ok ⟨[⟨"A", "Start", "rectangle"⟩], [], [], "flowchart", false⟩ ∧
    ("rectangle" : String) ≠ "stadium" := by
  exact ⟨rfl, by decide⟩

/-- **C6 amended** (status: corrected).  Because the patterns are tried in a
fixed priority order with the rectangle pattern `/\[([^\]]+)\]/` first and the
rounded pattern `/\(([^)]+)\)/` second, only `[]`, `()`, `{{}}`, `{}` and `>]`
behave as the claim's table says; `([])` parses as a rectangle (inner
brackets win), `[[]]` as a rectangle with label `[Start`, `[()]` as a
rectangle with label `(Start)`, `(())` as rounded with label `(Go`, and
`[//]` as a rectangle with label `/Start/`. -/
theorem C6_node_shapes_amended :
    parseMermaidCode 0 "flowchart TD\nA[Start]" =
      .ok ⟨[⟨"A", "Start", "rectangle"⟩], [], [], "flowchart", false⟩ ∧
    parseMermaidCode 0 "flowchart TD\nA(Start)" =
      .ok ⟨[⟨"A", "Start", "rounded"⟩], [], [], "flowchart", false⟩ ∧
    parseMermaidCode 0 "flowchart TD\nA([Start])" =
      .ok ⟨[⟨"A", "Start", "rectangle"⟩], [], [], "flowchart", false⟩ ∧
    parseMermaidCode 0 "flowchart TD\nA[[Start]]" =
      .ok ⟨[⟨"A", "[Start", "rectangle"⟩], [], [], "flowchart", false⟩ ∧
    parseMermaidCode 0 "flowchart TD\nA[(Start)]" =
      .ok ⟨[⟨"A", "(Start)", "rectangle"⟩], [], [], "flowchart", false⟩ ∧
    parseMermaidCode 0 "flowchart TD\nA\x7b\x7bStart\x7d\x7d" =
      .ok ⟨[⟨"A", "Start", "hexagon"⟩], [], [], "flowchart", false⟩ ∧
    parseMermaidCode 0 "flowchart TD\nA\x7bStart\x7d" =
      .ok ⟨[⟨"A", "Start", "diamond"⟩], [], [], "flowchart", false⟩ ∧
    parseMermaidCode 0 "flowchart TD\nA((Go))" =
      .ok ⟨[⟨"A", "(Go", "rounded"⟩], [], [], "flowchart", false⟩ ∧
    parseMermaidCode 0 "flowchart TD\nA>Start]" =
      .ok ⟨[⟨"A", "Start", "asymmetric"⟩], [], [], "flowchart", false⟩ ∧
    parseMermaidCode 0 "flowchart TD\nA[/Start/]" =
      .ok ⟨[⟨"A", "/Start/", "rectangle"⟩], [], [], "flowchart", false⟩ := by
  exact ⟨rfl, rfl, rfl, rfl, rfl, rfl, rfl, rfl, rfl, rfl⟩

/-- **C8 counterexample**.  `parseMermaidCode` can return a graph with zero
nodes: a header-only input has a non-zero non-comment line count, so it is not
rejected, and no node is ever produced — refuting "neither ever returns a
result with zero nodes". -/
theorem C8_counterexample :
    parseMermaidCode 0 "flowchart TD" =
      .ok ⟨[], [], [], "flowchart", false⟩ ∧
    preprocessLines "flowchart TD" ≠ [] := by
  exact ⟨rfl, by decide⟩

/-- **C9 counterexample**.  The sequence serializer emits a message line for an
edge whose target id `Z` resolves to no node, refuting "the sequence …
serializer omits that edge". -/
theorem C9_counterexample :
    generateSequenceDiagram [c9Node] [c9Edge] =
      "sequenceDiagram\n\n    participant A as A\n\n    A->>Z: message" ∧
    edgeResolves [c9Node] c9Edge = false := by
  exact ⟨rfl, rfl⟩

/-- State-record updates of the flowchart parser do not change the
`usedClock` instrumentation flag. -/
theorem addCur_usedClock (st : FState) (id : String) :
    (addCur st id).usedClock = st.usedClock := by
  unfold addCur
  split <;> rfl

/-- `addNodeIfNew` does not change the flag. -/
theorem addNodeIfNew_usedClock (st : FState) (n : MNode) :
    (addNodeIfNew st n).usedClock = st.usedClock := by
  unfold addNodeIfNew
  split
  · rfl
  · exact addCur_usedClock _ _

/-- `registerSource` does not change the flag. -/
theorem registerSource_usedClock (st : FState) (o : Option MNode) :
    (registerSource st o).usedClock = st.usedClock := by
  cases o with
  | some n => exact addNodeIfNew_usedClock _ _
  | none => rfl

/-- `pushEdge` does not change the flag. -/
theorem pushEdge_usedClock (st : FState) (o : Option MNode) (ts : List MNode)
    (em : EdgeMatch) : (pushEdge st o ts em).usedClock = st.usedClock := by
  unfold pushEdge
  split <;> rfl

/-- Whether `parseNodeFromPart` consults the clock depends only on the part. -/
theorem parseNodeFromPart_flag (now now' : Nat) (part : List Char) :
    (parseNodeFromPart now part).2 = (parseNodeFromPart now' part).2 := by
  unfold parseNodeFromPart
  split
  · rfl
  · split <;> split <;> rfl

/-- `parseNodeFromPart` is clock-independent when the fallback id is not
taken. -/
theorem parseNodeFromPart_indep (now now' : Nat) (part : List Char)
    (h : (parseNodeFromPart now part).2 = false) :
    parseNodeFromPart now part = parseNodeFromPart now' part := by
  by_cases h0 : jsTrim part = []
  · simp [parseNodeFromPart, h0]
  · simp only [parseNodeFromPart, if_neg h0] at h ⊢
    cases hf : findNodePattern part nodePatterns with
    | none => simp [hf]
    | some v =>
      obtain ⟨cap, shape⟩ := v
      simp only [hf] at h ⊢
      cases hl : leadIdent part with
      | some idcs => simp [hl]
      | none => simp [hl] at h

/-- `chainFirstNode`'s flag depends only on the part. -/
theorem chainFirstNode_flag (now now' : Nat) (p : List Char) :
    (chainFirstNode now p).2 = (chainFirstNode now' p).2 := by
  unfold chainFirstNode
  split
  · rfl
  · split
    · rfl
    · exact parseNodeFromPart_flag _ _ _

/-- `chainFirstNode` is clock-independent when the fallback is not taken. -/
theorem chainFirstNode_indep (now now' : Nat) (p : List Char)
    (h : (chainFirstNode now p).2 = false) :
    chainFirstNode now p = chainFirstNode now' p := by
  cases p with
  | nil => rfl
  | cons c t =>
    simp only [chainFirstNode] at h ⊢
    split at h <;> rename_i hc
    · simp [hc]
    · rw [if_neg hc, if_neg hc]
      exact parseNodeFromPart_indep _ _ _ h

/-- Once set, the flag stays set through `parseFlowchartLine`. -/
theorem pfl_mono (now : Nat) : ∀ (fuel : Nat) (line : List Char) (st : FState),
    st.usedClock = true → (parseFlowchartLineF now fuel line st).usedClock = true := by
  intro fuel
  induction fuel with
  | zero => intro line st h; exact h
  | succ fuel ih =>
    intro line st h
    simp only [parseFlowchartLineF]
    cases hfe : findEdge line with
    | none =>
      rw [registerSource_usedClock]
      simp [h]
    | some em =>
      rw [pushEdge_usedClock]
      by_cases hm : (edgePats.any fun p =>
          (rxSearch p.rx (jsTrim (List.drop (em.index + em.length) line))).isSome) = true
      · rw [if_pos hm]
        show ((parseFlowchartLineF now fuel _ _).usedClock || _) = true
        rw [ih _ _ (by rw [registerSource_usedClock]; simp [h])]
        rfl
      · rw [if_neg hm]
        cases hpn : (parseNodeFromPart now
            (jsTrim (List.drop (em.index + em.length) line))).1 with
        | some n =>
          simp only [hpn]
          rw [addNodeIfNew_usedClock, registerSource_usedClock]
          simp [h]
        | none =>
          simp only [hpn]
          rw [registerSource_usedClock]
          simp [h]

/-- `parseFlowchartLine` is clock-independent whenever its run never takes the
fallback id. -/
theorem pfl_indep (now now' : Nat) : ∀ (fuel : Nat) (line : List Char) (st : FState),
    (parseFlowchartLineF now fuel line st).usedClock = false →
    parseFlowchartLineF now fuel line st = parseFlowchartLineF now' fuel line st := by
  intro fuel
  induction fuel with
  | zero => intro line st _; rfl
  | succ fuel ih =>
    intro line st hflag
    simp only [parseFlowchartLineF] at hflag ⊢
    cases hfe : findEdge line with
    | none =>
      rw [hfe] at hflag
      dsimp only at hflag
      rw [registerSource_usedClock] at hflag
      dsimp only at hflag
      have h2 : (parseNodeFromPart now line).2 = false := by
        rcases Bool.or_eq_false_iff.mp hflag with ⟨_, h2⟩
        exact h2
      rw [← parseNodeFromPart_indep now now' line h2]
    | some em =>
      rw [hfe] at hflag
      dsimp only at hflag ⊢
      rw [pushEdge_usedClock] at hflag
      by_cases hm : (edgePats.any fun p =>
          (rxSearch p.rx (jsTrim (List.drop (em.index + em.length) line))).isSome) = true
      · rw [if_pos hm] at hflag
        rw [if_pos hm, if_pos hm]
        dsimp only at hflag ⊢
        rcases Bool.or_eq_false_iff.mp hflag with ⟨hA, hB⟩
        have hps : (parseNodeFromPart now (jsTrim (List.take em.index line))).2 = false := by
          by_contra htrue
          rw [Bool.not_eq_false] at htrue
          have hstc : (registerSource
              { st with usedClock := st.usedClock ||
                  (parseNodeFromPart now (jsTrim (List.take em.index line))).2 }
              (parseNodeFromPart now (jsTrim (List.take em.index line))).1).usedClock = true := by
            rw [registerSource_usedClock, htrue]
            simp
          rw [pfl_mono now fuel _ _ hstc] at hA
          cases hA
        rw [← parseNodeFromPart_indep now now' _ hps, ← chainFirstNode_indep now now' _ hB,
          ← ih _ _ hA]
      · rw [if_neg hm] at hflag
        rw [if_neg hm, if_neg hm]
        cases hpn : (parseNodeFromPart now
            (jsTrim (List.drop (em.index + em.length) line))).1 with
        | some n =>
          rw [hpn] at hflag
          dsimp only at hflag
          rw [addNodeIfNew_usedClock] at hflag
          dsimp only at hflag
          rw [registerSource_usedClock] at hflag
          dsimp only at hflag
          rcases Bool.or_eq_false_iff.mp hflag with ⟨hAB, hC⟩
          rcases Bool.or_eq_false_iff.mp hAB with ⟨_, hB⟩
          rw [← parseNodeFromPart_indep now now' _ hB,
            ← parseNodeFromPart_indep now now' _ hC, hpn]
        | none =>
          rw [hpn] at hflag
          dsimp only at hflag
          rw [registerSource_usedClock] at hflag
          dsimp only at hflag
          rcases Bool.or_eq_false_iff.mp hflag with ⟨hAB, hC⟩
          rcases Bool.or_eq_false_iff.mp hAB with ⟨_, hB⟩
          rw [← parseNodeFromPart_indep now now' _ hB,
            ← parseNodeFromPart_indep now now' _ hC, hpn]

/-- Once set, the flag stays set through a flowchart loop step. -/
theorem flowchartStep_mono (now : Nat) (st : FState) (line : List Char)
    (h : st.usedClock = true) : (flowchartStep now st line).usedClock = true := by
  unfold flowchartStep
  split
  · exact h
  split
  · split
    · split
      · exact h
      · exact h
    · exact h
  split
  · exact h
  · exact pfl_mono now _ _ _ h

/-- A flowchart loop step is clock-independent when its run never takes the
fallback id. -/
theorem flowchartStep_indep (now now' : Nat) (st : FState) (line : List Char)
    (h : (flowchartStep now st line).usedClock = false) :
    flowchartStep now st line = flowchartStep now' st line := by
  unfold flowchartStep at h ⊢
  by_cases hd : isDirectionLine line = true
  · rw [if_pos hd, if_pos hd]
  · rw [if_neg hd] at h
    rw [if_neg hd, if_neg hd]
    by_cases hs : (L "subgraph").isPrefixOf line = true
    · rw [if_pos hs, if_pos hs]
    · rw [if_neg hs] at h
      rw [if_neg hs, if_neg hs]
      by_cases he : line = L "end"
      · rw [if_pos he, if_pos he]
      · rw [if_neg he] at h
        rw [if_neg he, if_neg he]
        exact pfl_indep now now' _ _ _ h

/-- Once set, the flag stays set through the flowchart loop. -/
theorem flowchartFold_mono (now : Nat) : ∀ (lns : List (List Char)) (st : FState),
    st.usedClock = true → (lns.foldl (flowchartStep now) st).usedClock = true := by
  intro lns
  induction lns with
  | nil => intro st h; exact h
  | cons l t ih => intro st h; exact ih _ (flowchartStep_mono now st l h)

/-- The flowchart loop is clock-independent when its run never takes the
fallback id. -/
theorem flowchartFold_indep (now now' : Nat) : ∀ (lns : List (List Char)) (st : FState),
    (lns.foldl (flowchartStep now) st).usedClock = false →
    lns.foldl (flowchartStep now) st = lns.foldl (flowchartStep now') st := by
  intro lns
  induction lns with
  | nil => intro st _; rw [List.foldl_nil, List.foldl_nil]
  | cons l t ih =>
    intro st hf
    rw [List.foldl_cons] at hf
    have hstep : (flowchartStep now st l).usedClock = false := by
      by_contra htrue
      rw [Bool.not_eq_false] at htrue
      have := flowchartFold_mono now t (flowchartStep now st l) htrue
      rw [this] at hf
      cases hf
    rw [List.foldl_cons, List.foldl_cons, ← flowchartStep_indep now now' st l hstep]
    exact ih _ hf

/-- **C3 amended** (status: corrected).  `parseMermaidCode` is a deterministic
function of the pair (input text, clock value): whenever a run never takes the
`node_${Date.now()}` fallback id — in particular whenever every node part
begins with a letter or underscore — its result is independent of the clock.
It is not a function of the input text alone: on `1[Start] --> 2[End]` runs at
different clock values return different graphs (see the counterexample). -/
theorem C3_determinism_amended (code : String) (now now' : Nat)
    (h : clockUnused now code = true) :
    parseMermaidCode now code = parseMermaidCode now' code := by
  unfold clockUnused at h
  unfold parseMermaidCode at h ⊢
  cases hl : preprocessLines code with
  | nil => rfl
  | cons l0 rest =>
    rw [hl] at h
    dsimp only at h ⊢
    by_cases h1 : detectMermaidType (List.map Char.toLower l0) = "sequence"
    · rw [if_pos h1, if_pos h1]
    · rw [if_neg h1] at h
      rw [if_neg h1, if_neg h1]
      by_cases h2 : detectMermaidType (List.map Char.toLower l0) = "class"
      · rw [if_pos h2, if_pos h2]
      · rw [if_neg h2] at h
        rw [if_neg h2, if_neg h2]
        dsimp only at h
        have hff : (parseFlowchart now (l0 :: rest)).usedClock = false := by
          simpa using h
        unfold parseFlowchart at hff ⊢
        rw [flowchartFold_indep now now' _ _ hff]

/-- Witness for C3: a clock-free run (`A[Start]`) produces the same graph at
clock values `0` and `12345`. -/
theorem C3_determinism_amended_witness :
    clockUnused 0 "flowchart TD\nA[Start]" = true ∧
    parseMermaidCode 0 "flowchart TD\nA[Start]" =
      parseMermaidCode 12345 "flowchart TD\nA[Start]" :=
  ⟨rfl, C3_determinism_amended "flowchart TD\nA[Start]" 0 12345 rfl⟩

/-- **C5** (status: confirmed).  A non-swimlane vertex parent labelled `Foo`
with two vertex children `a:int` (above) and `b:int` (below) merges into
exactly one class-like node with name `Foo` and members `["a:int", "b:int"]`;
the children are not emitted as independent nodes, and the result is identical
whether the children precede or follow the parent in document order (the
parser indexes all cells before processing group relationships). -/
theorem C5_group_merge (s : String) (y1 y2 : Int)
    (hsw : strContains s "swimlane" = false) (hy : y1 < y2) :
    parseDrawioXMLCells (c5DocParentFirst s y1 y2) =
      parseDrawioXMLCells (c5DocChildrenFirst s y1 y2) ∧
    parseDrawioXMLCells (c5DocParentFirst s y1 y2) = ([c5Merged s], []) := by
  have hsort : sortByY
      [⟨some "c1", "a:int", "", some "1", none, some "g", none, none, none,
        some ⟨some 0, some y1, some 160, some 30⟩⟩,
       ⟨some "c2", "b:int", "", some "1", none, some "g", none, none, none,
        some ⟨some 0, some y2, some 160, some 30⟩⟩] =
      [⟨some "c1", "a:int", "", some "1", none, some "g", none, none, none,
        some ⟨some 0, some y1, some 160, some 30⟩⟩,
       ⟨some "c2", "b:int", "", some "1", none, some "g", none, none, none,
        some ⟨some 0, some y2, some 160, some 30⟩⟩] := by
    simp only [sortByY, List.foldl, insertByY, getGeometry, Option.getD, intOr]
    rw [if_pos (le_of_lt hy)]
  have hc1 : cleanLabel "Foo" = "Foo" := rfl
  have hc2 : cleanLabel "a:int" = "a:int" := rfl
  have hc3 : cleanLabel "b:int" = "b:int" := rfl
  have hc0 : cleanLabel "" = "" := rfl
  have hlab : String.intercalate "<br/>"
      ["**Foo**", "----------------", "a:int", "b:int"] =
      "**Foo**<br/>----------------<br/>a:int<br/>b:int" := rfl
  have hmain : parseDrawioXMLCells (c5DocParentFirst s y1 y2) = ([c5Merged s], []) := by
    simp [parseDrawioXMLCells, c5DocParentFirst, buildCellMaps, truthy, c5Group,
      c5Child1, c5Child2, gcAdd, alSet, alGet, alHas, processGroups, thirdPass,
      fourthPass, hsort, hsw, hc0, hc1, hc2, hc3, hlab, c5Merged, strOr,
      getGeometry, intOr, processNode, edgeMapHas]
  have hmain' : parseDrawioXMLCells (c5DocChildrenFirst s y1 y2) = ([c5Merged s], []) := by
    simp [parseDrawioXMLCells, c5DocChildrenFirst, buildCellMaps, truthy, c5Group,
      c5Child1, c5Child2, gcAdd, alSet, alGet, alHas, processGroups, thirdPass,
      fourthPass, hsort, hsw, hc0, hc1, hc2, hc3, hlab, c5Merged, strOr,
      getGeometry, intOr, processNode, edgeMapHas]
  exact ⟨hmain.trans hmain'.symm, hmain⟩

/-- Witness for C5: the theorem at the empty style string with the first child
at `y = 0` and the second at `y = 40`. -/
theorem C5_group_merge_witness :
    parseDrawioXMLCells (c5DocParentFirst "" 0 40) =
      parseDrawioXMLCells (c5DocChildrenFirst "" 0 40) ∧
    parseDrawioXMLCells (c5DocParentFirst "" 0 40) = ([c5Merged ""], []) :=
  C5_group_merge "" 0 40 (by decide) (by decide)

/-- A `filterMap` is unchanged by pre-filtering with a predicate that only
discards elements the map sends to `none`. -/
theorem filterMap_eq_filterMap_filter {α β : Type} (f : α → Option β) (p : α → Bool)
    (h : ∀ a, p a = false → f a = none) :
    ∀ l : List α, l.filterMap f = (l.filter p).filterMap f := by
  intro l
  induction l with
  | nil => rfl
  | cons a t ih =>
    cases hp : p a with
    | true => simp [List.filter_cons, hp, List.filterMap_cons, ih]
    | false => simp [List.filter_cons, hp, List.filterMap_cons, h a hp, ih]

/-- **C9 amended** (status: corrected).  The flowchart serializer and the
Mermaid → Draw.io direction silently drop edges whose endpoints do not resolve
to nodes (and always succeed), as the claim says; but the sequence and class
serializers drop only edges with null/empty endpoints — an edge whose
endpoint ids are absent from the node list is still emitted (see the
counterexample). -/
theorem C9_dangling_edges_amended :
    (∀ (nodes : List DNode) (edges : List DEdge),
      flowchartEdgeLines nodes edges =
        flowchartEdgeLines nodes (edges.filter (edgeResolves nodes))) ∧
    (∀ (now : Nat) (code : String) (r : List PNode × List MEdge),
      mermaidToDrawioCore now code = .ok r →
      ∀ e ∈ r.2, (r.1.map (fun n => n.id)).contains e.source = true ∧
        (r.1.map (fun n => n.id)).contains e.target = true) ∧
    (∀ edges : List DEdge,
      sequenceMessageLines edges =
        sequenceMessageLines (edges.filter edgeEndpointsTruthy)) ∧
    (∀ edges : List DEdge,
      classRelationLines edges =
        classRelationLines (edges.filter edgeEndpointsTruthy)) := by
  refine ⟨?_, ?_, ?_, ?_⟩
  · intro nodes edges
    unfold flowchartEdgeLines
    apply filterMap_eq_filterMap_filter
    intro e he
    unfold edgeResolves at he
    cases hs : truthy e.source <;> cases ht : truthy e.target <;>
      cases hcs : (nodes.map (fun n => n.id)).contains e.source <;>
      cases hct : (nodes.map (fun n => n.id)).contains e.target <;>
      simp_all
    obtain ⟨a, ha, hae⟩ := hcs
    obtain ⟨b, hb, hbe⟩ := hct
    exact he a ha hae b hb hbe
  · intro now code r h e he
    unfold mermaidToDrawioCore at h
    split at h
    · exact absurd h (by simp)
    · split at h
      · exact absurd h (by simp)
      · rw [Except.ok.injEq] at h
        subst h
        simp only [List.mem_filter] at he
        have := he.2
        simp only [Bool.and_eq_true] at this
        exact ⟨this.1, this.2⟩
  · intro edges
    unfold sequenceMessageLines
    apply filterMap_eq_filterMap_filter
    intro e he
    unfold edgeEndpointsTruthy at he
    cases hs : truthy e.source <;> cases ht : truthy e.target <;> simp_all
  · intro edges
    unfold classRelationLines
    apply filterMap_eq_filterMap_filter
    intro e he
    unfold edgeEndpointsTruthy at he
    cases hs : truthy e.source <;> cases ht : truthy e.target <;> simp_all

/-- Witness for C9: the amended theorem applied to the concrete serializer
inputs of the counterexample and to the concrete C4 conversion. -/
theorem C9_dangling_edges_amended_witness :
    (flowchartEdgeLines [c9Node] [c9Edge] =
      flowchartEdgeLines [c9Node] ([c9Edge].filter (edgeResolves [c9Node]))) ∧
    (∀ e ∈ c4CoreResult.2,
      (c4CoreResult.1.map (fun n => n.id)).contains e.source = true ∧
      (c4CoreResult.1.map (fun n => n.id)).contains e.target = true) :=
  ⟨C9_dangling_edges_amended.1 [c9Node] [c9Edge],
   C9_dangling_edges_amended.2.1 0 c4Input c4CoreResult rfl⟩

/-- **C8 amended** (status: corrected).  `parseMermaidCode` errors exactly on
inputs whose non-comment, non-blank line count is zero, and
`convertDrawioToMermaid` never returns successfully when the parsed document
has zero nodes; but `parseMermaidCode` itself *can* return a graph with zero
nodes for a non-empty input that declares none (see the counterexample) — the
zero-node rejection on the Mermaid side happens in `convertMermaidToDrawio`
instead. -/
theorem C8_empty_input_amended :
    (∀ (now : Nat) (code : String),
      (∃ e, parseMermaidCode now code = .error e) ↔ preprocessLines code = []) ∧
    (∀ (cells : List Cell) (direction diagramType s : String),
      convertDrawioToMermaidCells cells direction diagramType = .ok s →
      (parseDrawioXMLCells cells).1 ≠ []) := by
  constructor
  · intro now code
    unfold parseMermaidCode
    cases hl : preprocessLines code with
    | nil => simp
    | cons l0 rest =>
      simp only
      constructor
      · rintro ⟨e, he⟩
        split at he
        · exact absurd he (by simp)
        · split at he
          · exact absurd he (by simp)
          · exact absurd he (by simp)
      · intro h
        exact absurd h (by simp)
  · intro cells direction diagramType s h
    simp only [convertDrawioToMermaidCells] at h
    by_cases hlen : (parseDrawioXMLCells cells).1.length = 0
    · rw [if_pos hlen] at h
      exact absurd h (by simp)
    · intro hnil
      exact hlen (by rw [hnil]; rfl)

/-- Witness for C8: the empty string is rejected; a one-vertex document
converts successfully, so its parse is non-empty. -/
theorem C8_empty_input_amended_witness :
    ((∃ e, parseMermaidCode 0 "" = .error e) ↔ preprocessLines "" = []) ∧
    (parseDrawioXMLCells [plainVertexCell]).1 ≠ [] :=
  ⟨C8_empty_input_amended.1 0 "",
   C8_empty_input_amended.2 [plainVertexCell] "TD" "flowchart"
     "flowchart TD\n\n    X[X]" rfl⟩

/-- Invariant of the pattern-selection loop: processing the pattern indices
`[a, a+n)` starting from a best match that is optimal for `[0, a)` yields a
best match that is optimal for `[0, a+n)`; ties keep the earlier pattern. -/
theorem findEdgeAux_spec (line : List Char) :
    ∀ (n a : Nat) (best : Option EdgeMatch),
    (∀ b, best = some b →
      searchIdx line b.patIdx = some b.index ∧ b.patIdx < a ∧
      (∀ j, j < a → ∀ idx, searchIdx line j = some idx → b.index ≤ idx) ∧
      (∀ j, j < b.patIdx → ∀ idx, searchIdx line j = some idx → b.index < idx)) →
    (best = none → ∀ j, j < a → searchIdx line j = none) →
    (∀ b, findEdgeAux line (List.range' a n) best = some b →
      searchIdx line b.patIdx = some b.index ∧ b.patIdx < a + n ∧
      (∀ j, j < a + n → ∀ idx, searchIdx line j = some idx → b.index ≤ idx) ∧
      (∀ j, j < b.patIdx → ∀ idx, searchIdx line j = some idx → b.index < idx)) ∧
    (findEdgeAux line (List.range' a n) best = none →
      ∀ j, j < a + n → searchIdx line j = none) := by
  intro n
  induction n with
  | zero =>
    intro a best hsome hnone
    constructor
    · intro b hb
      have h := hsome b (by simpa [List.range', findEdgeAux] using hb)
      exact ⟨h.1, by omega, fun j hj => h.2.2.1 j (by omega), h.2.2.2⟩
    · intro hn j hj
      exact hnone (by simpa [List.range', findEdgeAux] using hn) j (by omega)
  | succ n ih =>
    intro a best hsome hnone
    rw [List.range'_succ]
    simp only [findEdgeAux]
    have harith : a + (n + 1) = (a + 1) + n := by omega
    rw [harith]
    cases hsr : rxSearch (edgePat a).rx line with
    | none =>
      have hsa : searchIdx line a = none := by simp [searchIdx, hsr]
      have hstep : stepBest line a best = best := by
        unfold stepBest
        rw [hsr]
      rw [hstep]
      refine ih (a + 1) best ?_ ?_
      · intro b hb
        have h := hsome b hb
        refine ⟨h.1, by omega, ?_, h.2.2.2⟩
        intro j hj idx hidx
        rcases Nat.lt_succ_iff_lt_or_eq.mp hj with hj' | hj'
        · exact h.2.2.1 j hj' idx hidx
        · subst hj'
          rw [hsa] at hidx
          cases hidx
      · intro hn j hj
        rcases Nat.lt_succ_iff_lt_or_eq.mp hj with hj' | hj'
        · exact hnone hn j hj'
        · subst hj'
          exact hsa
    | some r =>
      obtain ⟨idx, len, caps⟩ := r
      have hsa : searchIdx line a = some idx := by simp [searchIdx, hsr]
      cases hbest : best with
      | none =>
        have hstep : stepBest line a none =
            some ⟨a, idx, len, (edgePat a).etype,
              if (edgePat a).hasLabel then ⟨(capGet caps 1).getD []⟩ else ""⟩ := by
          unfold stepBest
          rw [hsr]
        rw [hstep]
        refine ih (a + 1) _ ?_ (fun hn => by cases hn)
        intro b' hb'
        injection hb' with hb'
        subst hb'
        refine ⟨hsa, by show a < a + 1; omega, ?_, ?_⟩
        · intro j hj i hi
          show idx ≤ i
          rcases Nat.lt_succ_iff_lt_or_eq.mp hj with hj' | hj'
          · rw [hnone hbest j hj'] at hi
            cases hi
          · subst hj'
            rw [hsa] at hi
            injection hi with hi
            omega
        · intro j hj i hi
          have hj' : j < a := hj
          rw [hnone hbest j hj'] at hi
          cases hi
      | some b =>
        have hb := hsome b hbest
        have hstep : stepBest line a (some b) =
            if idx < b.index then
              some ⟨a, idx, len, (edgePat a).etype,
                if (edgePat a).hasLabel then ⟨(capGet caps 1).getD []⟩ else ""⟩
            else some b := by
          unfold stepBest
          rw [hsr]
        rw [hstep]
        by_cases hlt : idx < b.index
        · rw [if_pos hlt]
          refine ih (a + 1) _ ?_ (fun hn => by cases hn)
          intro b' hb'
          injection hb' with hb'
          subst hb'
          refine ⟨hsa, by show a < a + 1; omega, ?_, ?_⟩
          · intro j hj i hi
            show idx ≤ i
            rcases Nat.lt_succ_iff_lt_or_eq.mp hj with hj' | hj'
            · have := hb.2.2.1 j hj' i hi
              omega
            · subst hj'
              rw [hsa] at hi
              injection hi with hi
              omega
          · intro j hj i hi
            show idx < i
            have hj' : j < a := hj
            have := hb.2.2.1 j (by omega) i hi
            omega
        · rw [if_neg hlt]
          refine ih (a + 1) _ ?_ (fun hn => by cases hn)
          intro b' hb'
          injection hb' with hb'
          subst hb'
          refine ⟨hb.1, by omega, ?_, hb.2.2.2⟩
          intro j hj i hi
          rcases Nat.lt_succ_iff_lt_or_eq.mp hj with hj' | hj'
          · exact hb.2.2.1 j hj' i hi
          · subst hj'
            rw [hsa] at hi
            injection hi with hi
            omega

/-- **C7** (status: confirmed).  The edge-pattern selection of
`parseFlowchartLine` is greedy leftmost-match: the selected pattern's match
index is minimal over all eight patterns, and any earlier-declared pattern
that also matches does so strictly later — ties in start position keep the
earlier-declared pattern.  When no pattern is selected, none matches.  In
particular `A -->|yes| B` selects the labelled arrow pattern (index 0, over
the unlabelled `-->` matching at the same position) and parses to one edge
labelled `yes`. -/
theorem C7_leftmost_match :
    (∀ (line : List Char) (em : EdgeMatch), findEdge line = some em →
      searchIdx line em.patIdx = some em.index ∧ em.patIdx < edgePats.length ∧
      (∀ j, j < edgePats.length → ∀ idx, searchIdx line j = some idx → em.index ≤ idx) ∧
      (∀ j, j < em.patIdx → ∀ idx, searchIdx line j = some idx → em.index < idx)) ∧
    (∀ line, findEdge line = none → ∀ j, j < edgePats.length → searchIdx line j = none) ∧
    parseMermaidCode 0 "flowchart TD\nA -->|yes| B" =
      .ok ⟨[⟨"A", "A", "rectangle"⟩, ⟨"B", "B", "rectangle"⟩],
           [⟨"edge_0", "A", "B", "yes", "arrow"⟩], [], "flowchart", false⟩ ∧
    findEdge (L "A -->|yes| B") = some ⟨0, 2, 8, "arrow", "yes"⟩ := by
  have base := fun line => findEdgeAux_spec line edgePats.length 0 none
    (fun b hb => by cases hb) (fun _ j hj => absurd hj (by omega))
  refine ⟨?_, ?_, rfl, rfl⟩
  · intro line em hem
    have h := (base line).1 em (by
      rw [← List.range_eq_range']
      simpa [findEdge] using hem)
    exact ⟨h.1, by simpa using h.2.1, fun j hj => h.2.2.1 j (by simpa using hj), h.2.2.2⟩
  · intro line hn j hj
    exact (base line).2
      (by rw [← List.range_eq_range']; simpa [findEdge] using hn)
      j (by simpa using hj)

/-- Witness for C7: the theorem applied to the line `A -->|yes| B` and its
computed edge match. -/
theorem C7_leftmost_match_witness :
    searchIdx (L "A -->|yes| B") 0 = some 2 ∧ (0 : Nat) < edgePats.length ∧
    (∀ j, j < edgePats.length → ∀ idx,
      searchIdx (L "A -->|yes| B") j = some idx → 2 ≤ idx) ∧
    (∀ j, j < 0 → ∀ idx, searchIdx (L "A -->|yes| B") j = some idx → 2 < idx) :=
  C7_leftmost_match.1 (L "A -->|yes| B") ⟨0, 2, 8, "arrow", "yes"⟩ rfl

/-- Characters produced by the whitespace-collapsing pass are `'_'` or come
from the input. -/
theorem collapseWsAux_mem {c : Char} :
    ∀ (p : Bool) (cs : List Char), c ∈ collapseWsAux p cs → c = '_' ∨ c ∈ cs := by
  intro p cs
  induction cs generalizing p with
  | nil => simp [collapseWsAux]
  | cons d t ih =>
    simp only [collapseWsAux]
    split
    · split
      · intro h
        rcases ih _ h with h1 | h1
        · exact Or.inl h1
        · exact Or.inr (List.mem_cons_of_mem _ h1)
      · intro h
        rcases List.mem_cons.mp h with h1 | h1
        · exact Or.inl h1
        · rcases ih _ h1 with h2 | h2
          · exact Or.inl h2
          · exact Or.inr (List.mem_cons_of_mem _ h2)
    · intro h
      rcases List.mem_cons.mp h with h1 | h1
      · exact Or.inr (by simp [h1])
      · rcases ih _ h1 with h2 | h2
        · exact Or.inl h2
        · exact Or.inr (List.mem_cons_of_mem _ h2)

/-- **C10** (status: confirmed).  For every input — the empty string, strings
of only special characters, and `none` alike — `sanitizeId` returns a
non-empty string of ASCII letters, digits and underscores that does not begin
with a digit, so every identifier the Mermaid serializers emit is a valid
Mermaid identifier. -/
theorem C10_sanitizeId_valid (id : Option String) :
    sanitizeId id ≠ "" ∧
    (∀ c ∈ (sanitizeId id).data, idChar c = true) ∧
    (∀ c, (sanitizeId id).data.head? = some c → c.isDigit = false) := by
  match id with
  | none => refine ⟨by decide, by decide, by decide⟩
  | some s =>
    show (sanitizeId (some s)) ≠ "" ∧ _
    rw [sanitizeId]
    by_cases hs : s = ""
    · simp only [hs, if_pos rfl]
      refine ⟨by decide, by decide, by decide⟩
    · simp only [if_neg hs]
      have hfil : ∀ c ∈ (collapseWsAux false s.data).filter idChar, idChar c = true := by
        intro c hc
        exact (List.mem_filter.mp hc).2
      rcases hfl : (collapseWsAux false s.data).filter idChar with _ | ⟨c0, rest⟩
      · refine ⟨by decide, by decide, by decide⟩
      · have hc0 : idChar c0 = true := by
          have := hfil c0 (by rw [hfl]; exact List.mem_cons_self _ _)
          exact this
        by_cases hd : c0.isDigit
        · simp only [if_pos hd]
          have hne : ('n' :: '_' :: c0 :: rest : List Char) ≠ [] := by simp
          simp only [if_neg hne]
          refine ⟨?_, ?_, ?_⟩
          · intro h
            have : ('n' :: '_' :: c0 :: rest : List Char) = [] := congrArg String.data h
            simp at this
          · intro c hc
            rcases List.mem_cons.mp hc with h1 | h1
            · simp [h1, idChar]
            · rcases List.mem_cons.mp h1 with h2 | h2
              · simp [h2, idChar]
              · exact hfil c (by rw [hfl]; exact h2)
          · intro c hc
            have hc' : 'n' = c := by simpa using hc
            rw [← hc']; decide
        · simp only [if_neg hd]
          have hne : (c0 :: rest : List Char) ≠ [] := by simp
          simp only [if_neg hne]
          refine ⟨?_, ?_, ?_⟩
          · intro h
            have : (c0 :: rest : List Char) = [] := congrArg String.data h
            simp at this
          · intro c hc
            exact hfil c (by rw [hfl]; exact hc)
          · intro c hc
            have hc' : c0 = c := by simpa using hc
            rw [← hc']
            exact Bool.eq_false_iff.mpr hd

end D2M

namespace D2M

theorem alGet_mem {α : Type} {m : List (String × α)} {k : String} {v : α}
    (h : alGet m k = some v) : (k, v) ∈ m := by
  unfold alGet at h
  cases hf : m.find? (fun e => e.1 = k) with
  | none => rw [hf] at h; cases h
  | some e =>
    rw [hf] at h
    injection h with h
    have hm := List.mem_of_find?_eq_some hf
    have hp := List.find?_some hf
    have h1 : e.1 = k := by simpa using hp
    have : e = (k, v) := Prod.ext h1 h
    rwa [this] at hm

theorem alGet_isSome_of_mem {α : Type} {m : List (String × α)} {k : String} {v : α}
    (h : (k, v) ∈ m) : ∃ w, alGet m k = some w := by
  unfold alGet
  have hs : (m.find? (fun e => e.1 = k)).isSome := by
    rw [List.find?_isSome]
    exact ⟨(k, v), h, by simp⟩
  cases hf : m.find? (fun e => e.1 = k) with
  | none => rw [hf] at hs; cases hs
  | some e => exact ⟨e.2, rfl⟩

/-- Entries of the fold placing one layer: an old entry, or a node of that
layer at its position. -/
theorem placeNode_fold_form (len : Int) (li : Nat) (layer : List String) :
    ∀ (ps : List (Nat × String)) (m : List (String × Int × Int)),
    (∀ q ∈ ps, layer[q.1]? = some q.2) →
    ∀ e ∈ ps.foldl (placeNode len li) m,
      e ∈ m ∨ ∃ i, layer[i]? = some e.1 ∧ e.2 = nodePos len li i := by
  intro ps
  induction ps with
  | nil => intro m _ e he; exact Or.inl he
  | cons q rest ih =>
    intro m hq e he
    rw [List.foldl_cons] at he
    rcases ih _ (fun r hr => hq r (List.mem_cons_of_mem _ hr)) e he with h1 | h1
    · unfold placeNode alSet at h1
      rcases List.mem_cons.mp h1 with h2 | h2
      · right
        refine ⟨q.1, ?_, ?_⟩
        · rw [show e.1 = q.2 from congrArg Prod.fst h2]
          exact hq q (List.mem_cons_self _ _)
        · exact congrArg Prod.snd h2
      · exact Or.inl h2
    · exact Or.inr h1

/-- Entries of the full position map: every entry is a node of some layer at
that layer's position. -/
theorem buildPositionMap_form (layers : List (List String)) :
    ∀ e ∈ buildPositionMap layers,
      ∃ li layer i, layers[li]? = some layer ∧ layer[i]? = some e.1 ∧
        e.2 = nodePos (layer.length : Int) li i := by
  suffices h : ∀ (ls : List (Nat × List String)) (m : List (String × Int × Int)),
      (∀ q ∈ ls, layers[q.1]? = some q.2) →
      (∀ e ∈ m, ∃ li layer i, layers[li]? = some layer ∧ layer[i]? = some e.1 ∧
        e.2 = nodePos (layer.length : Int) li i) →
      ∀ e ∈ ls.foldl placeLayer m,
        ∃ li layer i, layers[li]? = some layer ∧ layer[i]? = some e.1 ∧
          e.2 = nodePos (layer.length : Int) li i by
    intro e he
    exact h layers.enum [] (fun q hq => (List.mem_enum_iff_getElem?.mp hq))
      (fun e he => absurd he (List.not_mem_nil e)) e he
  intro ls
  induction ls with
  | nil => intro m _ hm e he; exact hm e he
  | cons q rest ih =>
    intro m hq hm e he
    rw [List.foldl_cons] at he
    refine ih _ (fun r hr => hq r (List.mem_cons_of_mem _ hr)) ?_ e he
    intro e' he'
    unfold placeLayer at he'
    rcases placeNode_fold_form (q.2.length : Int) q.1 q.2 q.2.enum m
        (fun r hr => List.mem_enum_iff_getElem?.mp hr) e' he' with h1 | h1
    · exact hm e' h1
    · obtain ⟨i, hi, hv⟩ := h1
      exact ⟨q.1, q.2, i, hq q (List.mem_cons_self _ _), hi, hv⟩

/-- The placing fold never removes entries. -/
theorem placeNode_fold_mono (len : Int) (li : Nat) :
    ∀ (ps : List (Nat × String)) (m : List (String × Int × Int)),
    ∀ e ∈ m, e ∈ ps.foldl (placeNode len li) m := by
  intro ps
  induction ps with
  | nil => intro m e he; exact he
  | cons q rest ih =>
    intro m e he
    rw [List.foldl_cons]
    exact ih _ e (List.mem_cons_of_mem _ he)

/-- The layer-placing fold never removes entries. -/
theorem placeLayer_fold_mono :
    ∀ (ls : List (Nat × List String)) (m : List (String × Int × Int)),
    ∀ e ∈ m, e ∈ ls.foldl placeLayer m := by
  intro ls
  induction ls with
  | nil => intro m e he; exact he
  | cons q rest ih =>
    intro m e he
    rw [List.foldl_cons]
    refine ih _ e ?_
    unfold placeLayer
    exact placeNode_fold_mono _ _ _ _ e he

/-- Every node of a placed layer gets an entry. -/
theorem placeNode_fold_exists (len : Int) (li : Nat) :
    ∀ (ps : List (Nat × String)) (m : List (String × Int × Int)) (i : Nat) (id : String),
    (i, id) ∈ ps → ∃ p, (id, p) ∈ ps.foldl (placeNode len li) m := by
  intro ps
  induction ps with
  | nil => intro m i id h; exact absurd h (List.not_mem_nil _)
  | cons q rest ih =>
    intro m i id h
    rw [List.foldl_cons]
    rcases List.mem_cons.mp h with h1 | h1
    · refine ⟨nodePos len li i, ?_⟩
      apply placeNode_fold_mono
      rw [← h1]
      unfold placeNode alSet
      exact List.mem_cons_self _ _
    · exact ih _ i id h1

/-- Every node of every layer gets an entry in the position map. -/
theorem buildPositionMap_exists (layers : List (List String)) (li i : Nat)
    (layer : List String) (id : String)
    (hl : layers[li]? = some layer) (hi : layer[i]? = some id) :
    ∃ p, (id, p) ∈ buildPositionMap layers := by
  unfold buildPositionMap
  suffices h : ∀ (ls : List (Nat × List String)) (m : List (String × Int × Int)),
      (li, layer) ∈ ls → ∃ p, (id, p) ∈ ls.foldl placeLayer m by
    exact h layers.enum [] (List.mem_enum_iff_getElem?.mpr hl)
  intro ls
  induction ls with
  | nil => intro m h; exact absurd h (List.not_mem_nil _)
  | cons q rest ih =>
    intro m h
    rw [List.foldl_cons]
    rcases List.mem_cons.mp h with h1 | h1
    · obtain ⟨p, hp⟩ := placeNode_fold_exists (layer.length : Int) li layer.enum m i id
        (List.mem_enum_iff_getElem?.mpr hi)
      refine ⟨p, placeLayer_fold_mono rest _ _ ?_⟩
      rw [← h1]
      unfold placeLayer
      exact hp
    · exact ih _ h1

/-- With pairwise-disjoint, duplicate-free layers, looking a node up in the
position map gives exactly its `nodePos`. -/
theorem buildPositionMap_lookup (layers : List (List String))
    (hpd : layers.Pairwise (fun l1 l2 => ∀ a ∈ l1, a ∉ l2))
    (hndl : ∀ l ∈ layers, l.Nodup)
    (li i : Nat) (layer : List String) (id : String)
    (hl : layers[li]? = some layer) (hi : layer[i]? = some id) :
    alGet (buildPositionMap layers) id = some (nodePos (layer.length : Int) li i) := by
  obtain ⟨p0, hp0⟩ := buildPositionMap_exists layers li i layer id hl hi
  obtain ⟨w, hw⟩ := alGet_isSome_of_mem hp0
  obtain ⟨li', layer', i', hl', hi', hv⟩ :=
    buildPositionMap_form layers (id, w) (alGet_mem hw)
  obtain ⟨hlen, hgl⟩ := List.getElem?_eq_some.mp hl
  obtain ⟨hlen', hgl'⟩ := List.getElem?_eq_some.mp hl'
  have hmem : id ∈ layer := List.getElem?_mem hi
  have hmem' : id ∈ layer' := List.getElem?_mem hi'
  have hli : li' = li := by
    rcases Nat.lt_trichotomy li' li with h | h | h
    · have hd := List.pairwise_iff_getElem.mp hpd li' li hlen' hlen h
      rw [hgl, hgl'] at hd
      exact absurd hmem (hd id hmem')
    · exact h
    · have hd := List.pairwise_iff_getElem.mp hpd li li' hlen hlen' h
      rw [hgl, hgl'] at hd
      exact absurd hmem' (hd id hmem)
  subst hli
  have hlay : layer' = layer := by
    rw [hl] at hl'
    exact (Option.some.inj hl').symm
  rw [hlay] at hi' hv
  have hnd' : layer.Nodup := hndl layer (List.getElem?_mem hl)
  obtain ⟨hleni, hgi⟩ := List.getElem?_eq_some.mp hi
  obtain ⟨hleni', hgi'⟩ := List.getElem?_eq_some.mp hi'
  have hgg : layer[i'] = layer[i] := by rw [hgi, hgi']
  have hii : i' = i := (List.Nodup.getElem_inj_iff hnd').mp hgg
  subst hii
  rw [hw]
  exact congrArg some hv

/-- `addNb` folds preserve `Nodup` and disjointness from `visited`. -/
theorem addNb_fold_inv (visited : List String) :
    ∀ (ns acc : List String), acc.Nodup → (∀ a ∈ acc, a ∉ visited) →
      ((ns.foldl (addNb visited) acc).Nodup ∧
        ∀ a ∈ ns.foldl (addNb visited) acc, a ∉ visited) := by
  intro ns
  induction ns with
  | nil => intro acc h1 h2; exact ⟨h1, h2⟩
  | cons n rest ih =>
    intro acc h1 h2
    rw [List.foldl_cons]
    by_cases hc : (visited.contains n || acc.contains n) = true
    · have hstep : addNb visited acc n = acc := by unfold addNb; rw [if_pos hc]
      rw [hstep]
      exact ih acc h1 h2
    · have hstep : addNb visited acc n = acc ++ [n] := by unfold addNb; rw [if_neg hc]
      rw [hstep]
      have hnv : n ∉ visited := by
        intro hmem
        exact hc (by simp [hmem])
      have hna : n ∉ acc := by
        intro hmem
        exact hc (by simp [hmem])
      apply ih
      · simp [List.nodup_append, h1, hna]
      · intro a ha
        rcases List.mem_append.mp ha with h | h
        · exact h2 a h
        · rw [List.mem_singleton.mp h]
          exact hnv

/-- The next BFS layer is duplicate-free and disjoint from `visited`. -/
theorem nextLayerOf_inv (adjacency : List (String × List String))
    (visited : List String) (cur : List String) :
    (nextLayerOf adjacency visited cur).Nodup ∧
      ∀ a ∈ nextLayerOf adjacency visited cur, a ∉ visited := by
  unfold nextLayerOf
  suffices h : ∀ (xs acc : List String), acc.Nodup → (∀ a ∈ acc, a ∉ visited) →
      ((xs.foldl (fun acc id => ((alGet adjacency id).getD []).foldl (addNb visited) acc)
          acc).Nodup ∧
        ∀ a ∈ xs.foldl (fun acc id => ((alGet adjacency id).getD []).foldl (addNb visited) acc)
          acc, a ∉ visited) by
    exact h cur [] List.nodup_nil (fun a ha => absurd ha (List.not_mem_nil a))
  intro xs
  induction xs with
  | nil => intro acc h1 h2; exact ⟨h1, h2⟩
  | cons x rest ih =>
    intro acc h1 h2
    rw [List.foldl_cons]
    obtain ⟨h1', h2'⟩ := addNb_fold_inv visited ((alGet adjacency x).getD []) acc h1 h2
    exact ih _ h1' h2'

/-- BFS invariant: the produced layers are pairwise disjoint, each duplicate
free, and all their members are visited. -/
theorem bfsAux_inv (adjacency : List (String × List String)) :
    ∀ (fuel : Nat) (cur visited : List String) (layers : List (List String)),
    layers.Pairwise (fun l1 l2 => ∀ a ∈ l1, a ∉ l2) →
    (∀ l ∈ layers, l.Nodup) →
    cur.Nodup →
    (∀ a ∈ cur, a ∉ visited) →
    (∀ l ∈ layers, ∀ a ∈ l, a ∈ visited) →
    ((bfsAux adjacency fuel cur visited layers).1.Pairwise
        (fun l1 l2 => ∀ a ∈ l1, a ∉ l2) ∧
      (∀ l ∈ (bfsAux adjacency fuel cur visited layers).1, l.Nodup) ∧
      ∀ l ∈ (bfsAux adjacency fuel cur visited layers).1, ∀ a ∈ l,
        a ∈ (bfsAux adjacency fuel cur visited layers).2) := by
  intro fuel
  induction fuel with
  | zero => intro cur visited layers h1 h2 _ _ h5; exact ⟨h1, h2, h5⟩
  | succ fuel ih =>
    intro cur visited layers h1 h2 h3 h4 h5
    cases cur with
    | nil => exact ⟨h1, h2, h5⟩
    | cons c t =>
      rw [show bfsAux adjacency (fuel + 1) (c :: t) visited layers =
            bfsAux adjacency fuel (nextLayerOf adjacency (visited ++ c :: t) (c :: t))
              (visited ++ c :: t) (layers ++ [c :: t]) from rfl]
      apply ih
      · rw [List.pairwise_append]
        refine ⟨h1, by simp, ?_⟩
        intro l hl l' hl' a ha hmem'
        rw [List.mem_singleton.mp hl'] at hmem'
        exact h4 a hmem' (h5 l hl a ha)
      · intro l hl
        rcases List.mem_append.mp hl with h | h
        · exact h2 l h
        · rw [List.mem_singleton.mp h]
          exact h3
      · exact (nextLayerOf_inv adjacency (visited ++ c :: t) (c :: t)).1
      · exact (nextLayerOf_inv adjacency (visited ++ c :: t) (c :: t)).2
      · intro l hl a ha
        rcases List.mem_append.mp hl with h | h
        · exact List.mem_append_left _ (h5 l h a ha)
        · rw [List.mem_singleton.mp h] at ha
          exact List.mem_append_right _ ha

/-- `pushLast` preserves the layer invariants when the pushed id is fresh,
and its members are the old members plus that id. -/
theorem pushLast_inv (id : String) :
    ∀ (ls : List (List String)),
    ls.Pairwise (fun l1 l2 => ∀ a ∈ l1, a ∉ l2) → (∀ l ∈ ls, l.Nodup) →
    (∀ l ∈ ls, id ∉ l) →
    ((pushLast ls id).Pairwise (fun l1 l2 => ∀ a ∈ l1, a ∉ l2) ∧
      (∀ l ∈ pushLast ls id, l.Nodup) ∧
      ∀ l ∈ pushLast ls id, ∀ a ∈ l, (∃ l0 ∈ ls, a ∈ l0) ∨ a = id) := by
  intro ls
  induction ls with
  | nil =>
    intro _ _ _
    refine ⟨by simp [pushLast], ?_, ?_⟩
    · intro l hl
      rw [show pushLast [] id = [[id]] from rfl] at hl
      rw [List.mem_singleton.mp hl]
      exact List.nodup_singleton id
    · intro l hl a ha
      rw [show pushLast [] id = [[id]] from rfl] at hl
      rw [List.mem_singleton.mp hl] at ha
      exact Or.inr (List.mem_singleton.mp ha)
  | cons l0 rest ih =>
    intro h1 h2 h3
    cases rest with
    | nil =>
      refine ⟨?_, ?_, ?_⟩
      · rw [show pushLast [l0] id = [l0 ++ [id]] from rfl]
        simp
      · intro l hl
        rw [show pushLast [l0] id = [l0 ++ [id]] from rfl] at hl
        rw [List.mem_singleton.mp hl]
        have hn := h2 l0 (List.mem_singleton.mpr rfl)
        have hf := h3 l0 (List.mem_singleton.mpr rfl)
        simp [List.nodup_append, hn, hf]
      · intro l hl a ha
        rw [show pushLast [l0] id = [l0 ++ [id]] from rfl] at hl
        rw [List.mem_singleton.mp hl] at ha
        rcases List.mem_append.mp ha with h | h
        · exact Or.inl ⟨l0, List.mem_singleton.mpr rfl, h⟩
        · exact Or.inr (List.mem_singleton.mp h)
    | cons l1 rest' =>
      obtain ⟨hhead, htail⟩ := List.pairwise_cons.mp h1
      obtain ⟨ih1, ih2, ih3⟩ := ih htail (fun l hl => h2 l (List.mem_cons_of_mem _ hl))
        (fun l hl => h3 l (List.mem_cons_of_mem _ hl))
      rw [show pushLast (l0 :: l1 :: rest') id = l0 :: pushLast (l1 :: rest') id from rfl]
      refine ⟨?_, ?_, ?_⟩
      · rw [List.pairwise_cons]
        refine ⟨?_, ih1⟩
        intro l' hl' a ha hmem'
        rcases ih3 l' hl' a hmem' with ⟨lz, hlz, halz⟩ | haid
        · exact hhead lz hlz a ha halz
        · exact h3 l0 (List.mem_cons_self _ _) (haid ▸ ha)
      · intro l hl
        rcases List.mem_cons.mp hl with h | h
        · rw [h]
          exact h2 l0 (List.mem_cons_self _ _)
        · exact ih2 l h
      · intro l hl a ha
        rcases List.mem_cons.mp hl with h | h
        · rw [h] at ha
          exact Or.inl ⟨l0, List.mem_cons_self _ _, ha⟩
        · rcases ih3 l h a ha with ⟨lz, hlz, halz⟩ | haid
          · exact Or.inl ⟨lz, List.mem_cons_of_mem _ hlz, halz⟩
          · exact Or.inr haid

/-- Appending the unvisited remainder preserves pairwise disjointness and
per-layer `Nodup`, given distinct node ids. -/
theorem appendRemaining_inv (visited : List String) :
    ∀ (ns : List MNode) (layers : List (List String)),
    (ns.map (fun n => n.id)).Nodup →
    layers.Pairwise (fun l1 l2 => ∀ a ∈ l1, a ∉ l2) →
    (∀ l ∈ layers, l.Nodup) →
    (∀ l ∈ layers, ∀ a ∈ l, a ∈ visited ∨ a ∉ ns.map (fun n => n.id)) →
    ((appendRemaining ns visited layers).Pairwise (fun l1 l2 => ∀ a ∈ l1, a ∉ l2) ∧
      ∀ l ∈ appendRemaining ns visited layers, l.Nodup) := by
  intro ns
  induction ns with
  | nil => intro layers _ h2 h3 _; exact ⟨h2, h3⟩
  | cons n rest ih =>
    intro layers h1 h2 h3 h4
    rw [show appendRemaining (n :: rest) visited layers =
          appendRemaining rest visited
            (if visited.contains n.id then layers else pushLast layers n.id) from rfl]
    rw [List.map_cons] at h1
    have h1' : (rest.map (fun n => n.id)).Nodup := (List.nodup_cons.mp h1).2
    have hnid : n.id ∉ rest.map (fun n => n.id) := (List.nodup_cons.mp h1).1
    by_cases hc : visited.contains n.id = true
    · rw [if_pos hc]
      apply ih _ h1' h2 h3
      intro l hl a ha
      rcases h4 l hl a ha with h | h
      · exact Or.inl h
      · right
        intro hmem
        rw [List.map_cons] at h
        exact h (List.mem_cons_of_mem _ hmem)
    · rw [if_neg hc]
      have hnv : n.id ∉ visited := fun hmem => hc (by simp [hmem])
      have hnin : ∀ l ∈ layers, n.id ∉ l := by
        intro l hl hmem
        rcases h4 l hl n.id hmem with h | h
        · exact hnv h
        · apply h
          rw [List.map_cons]
          exact List.mem_cons_self _ _
      obtain ⟨p1, p2, p3⟩ := pushLast_inv n.id layers h2 h3 hnin
      apply ih _ h1' p1 p2
      intro l hl a ha
      rcases p3 l hl a ha with ⟨lz, hlz, halz⟩ | haid
      · rcases h4 lz hlz a halz with h | h
        · exact Or.inl h
        · right
          intro hmem
          apply h
          rw [List.map_cons]
          exact List.mem_cons_of_mem _ hmem
      · right
        rw [haid]
        exact hnid

/-- The start layer has no duplicates whenever the roots have none. -/
theorem startOf_nodup (roots : List String) (nodes : List MNode)
    (h : roots.Nodup) : (startOf roots nodes).Nodup := by
  cases roots with
  | nil =>
    cases nodes with
    | nil => exact h
    | cons n0 rest => exact List.nodup_singleton _
  | cons r rs => exact h

/-- The layering produced by `layersOf` is pairwise disjoint with
duplicate-free layers, given distinct node ids. -/
theorem layersOf_inv (nodes : List MNode) (edges : List MEdge)
    (hnd : (nodes.map (fun n => n.id)).Nodup) :
    (layersOf nodes edges).Pairwise (fun l1 l2 => ∀ a ∈ l1, a ∉ l2) ∧
      ∀ l ∈ layersOf nodes edges, l.Nodup := by
  have hroots : ((nodes.filter
      (fun n => alGet (buildAdjDeg nodes edges).2 n.id = some 0)).map
        (fun n => n.id)).Nodup := by
    apply List.Nodup.sublist _ hnd
    exact List.Sublist.map _ (List.filter_sublist nodes)
  have hstart := startOf_nodup _ nodes hroots
  obtain ⟨b1, b2, b3⟩ := bfsAux_inv (buildAdjDeg nodes edges).1 (nodes.length + 1)
    (startOf ((nodes.filter
      (fun n => alGet (buildAdjDeg nodes edges).2 n.id = some 0)).map
        (fun n => n.id)) nodes) [] []
    List.Pairwise.nil
    (fun l hl => absurd hl (List.not_mem_nil l))
    hstart
    (fun a _ => List.not_mem_nil a)
    (fun l hl => absurd hl (List.not_mem_nil l))
  exact appendRemaining_inv _ nodes _ hnd b1 b2
    (fun l hl a ha => Or.inl (b3 l hl a ha))

/-- **C2 (amended)**.  With duplicate node ids ruled out: every positioned
node has width `120`, height `60`, strictly positive `y`; `x` is strictly
positive provided no BFS layer has more than four nodes (the counterexample
shows a five-node layer yields `x = -10`); nodes of the same layer share `y`;
distinct nodes of the same layer have distinct `x`. -/
theorem C2_layout_amended (nodes : List MNode) (edges : List MEdge)
    (hnd : (nodes.map (fun n => n.id)).Nodup) :
    (∀ p ∈ calculateNodePositions nodes edges,
        p.width = 120 ∧ p.height = 60 ∧ 0 < p.y ∧
          ((∀ l ∈ layersOf nodes edges, l.length ≤ 4) → 0 < p.x)) ∧
    (∀ layer ∈ layersOf nodes edges,
      ∀ p ∈ calculateNodePositions nodes edges,
      ∀ q ∈ calculateNodePositions nodes edges,
        p.id ∈ layer → q.id ∈ layer →
          p.y = q.y ∧ (p.id ≠ q.id → p.x ≠ q.x)) := by
  obtain ⟨hpd, hndl⟩ := layersOf_inv nodes edges hnd
  constructor
  · intro p hp
    simp only [calculateNodePositions, List.mem_map] at hp
    obtain ⟨n, hn, rfl⟩ := hp
    refine ⟨rfl, rfl, ?_, ?_⟩
    · dsimp only
      cases hpos : alGet (buildPositionMap (layersOf nodes edges)) n.id with
      | none => decide
      | some p0 =>
        obtain ⟨li, layer, i, hl, hi, hv⟩ :=
          buildPositionMap_form (layersOf nodes edges) (n.id, p0) (alGet_mem hpos)
        have hv' : p0 = nodePos (layer.length : Int) li i := hv
        subst hv'
        dsimp only [nodePos]
        split <;> omega
    · intro h4
      dsimp only
      cases hpos : alGet (buildPositionMap (layersOf nodes edges)) n.id with
      | none => decide
      | some p0 =>
        obtain ⟨li, layer, i, hl, hi, hv⟩ :=
          buildPositionMap_form (layersOf nodes edges) (n.id, p0) (alGet_mem hpos)
        have hle : layer.length ≤ 4 := h4 layer (List.getElem?_mem hl)
        have hv' : p0 = nodePos (layer.length : Int) li i := hv
        subst hv'
        dsimp only [nodePos]
        split <;> omega
  · intro layer hlay p hp q hq hpl hql
    obtain ⟨li, hl⟩ := List.mem_iff_getElem?.mp hlay
    simp only [calculateNodePositions, List.mem_map] at hp hq
    obtain ⟨n, hn, rfl⟩ := hp
    obtain ⟨m, hm, rfl⟩ := hq
    dsimp only at hpl hql ⊢
    obtain ⟨i, hi⟩ := List.mem_iff_getElem?.mp hpl
    obtain ⟨j, hj⟩ := List.mem_iff_getElem?.mp hql
    have hpn := buildPositionMap_lookup (layersOf nodes edges) hpd hndl li i layer n.id hl hi
    have hqn := buildPositionMap_lookup (layersOf nodes edges) hpd hndl li j layer m.id hl hj
    rw [hpn, hqn]
    constructor
    · dsimp only [nodePos]
    · intro hne
      have hij : i ≠ j := by
        intro h
        rw [h, hj] at hi
        exact hne (Option.some.inj hi).symm
      dsimp only [nodePos]
      split <;> split <;> omega

/-- Witness for C2: the amended layout theorem applied to the five-node
graph, with the distinct-id hypothesis discharged by `decide`. -/
theorem C2_layout_amended_witness :
    (c2Nodes.map (fun n => n.id)).Nodup ∧
    ((∀ p ∈ calculateNodePositions c2Nodes [],
        p.width = 120 ∧ p.height = 60 ∧ 0 < p.y ∧
          ((∀ l ∈ layersOf c2Nodes [], l.length ≤ 4) → 0 < p.x)) ∧
    (∀ layer ∈ layersOf c2Nodes [],
      ∀ p ∈ calculateNodePositions c2Nodes [],
      ∀ q ∈ calculateNodePositions c2Nodes [],
        p.id ∈ layer → q.id ∈ layer →
          p.y = q.y ∧ (p.id ≠ q.id → p.x ≠ q.x))) :=
  ⟨by decide, C2_layout_amended c2Nodes [] (by decide)⟩

end D2M
